import Mathlib

/-!
Verification of the adaptive geo-grid ingestion crawler in
src/data/data_ingestion.py, as a shallow embedding in Lean 4.

Modelling conventions:
- Python floats become rationals.  The only transcendental operation used by
  the source, math.cos(math.radians lat) inside meters_to_lng_degrees, is
  abstracted as an explicit function argument cosd, about which theorems
  assume only elementary bounds.
- The SQLite store becomes a record of append-only lists of row records plus
  fresh-id counters.  Each store helper of the source becomes a pure function
  from the store state to the new store state.
- utc_now_iso and time.perf_counter become a logical clock carried in the
  store state; no verified claim depends on the contents of a timestamp.
- The external HTTP client (fetch_places_nearby) becomes an oracle in an
  environment record, indexed by the api call number, returning either a
  successful list of raw place records plus status code or a failure with an
  error message, exactly the two outcomes the orchestrator distinguishes.
- The unbounded while loop of run_ingestion is embedded with an explicit
  fuel argument; the entry point run_loop supplies fuel
  effective_max_calls - calls_used + 1, which is proved sufficient because
  the budget check bounds the number of iterations.
-/

set_option maxRecDepth 4000

namespace Hunger

/-- Hard ceiling on external API calls, constant HARD_MAX_CALLS of the source. -/
def HARD_MAX_CALLS : Int := 4000

/-- Result-count threshold for saturation, constant SATURATION_THRESHOLD of the source. -/
def SATURATION_THRESHOLD : Nat := 18

/-- Status string constants, bound to names so they can appear in any position. -/
def stPending : String := "pending"

/-- Status of a cell currently being processed. -/
def stProcessing : String := "processing"

/-- Status of a successfully exhausted cell. -/
def stDone : String := "done"

/-- Status of a saturated cell that spawned children. -/
def stSplit : String := "split"

/-- Status of a cell whose external call failed. -/
def stError : String := "error"

/-- Status of an active run. -/
def stRunning : String := "running"

/-- Status of a run stopped by the call budget. -/
def stStopped : String := "stopped"

/-- Status of a run that exhausted its pending cells. -/
def stCompleted : String := "completed"

/-- Status of a run that raised an unhandled exception. -/
def stFailed : String := "failed"

/-- Bounding box of a region; the source keeps it as the 4-tuple
(sw_lat, sw_lng, ne_lat, ne_lng). -/
structure Bbox where
  sw_lat : ℚ
  sw_lng : ℚ
  ne_lat : ℚ
  ne_lng : ℚ
deriving DecidableEq, Repr

/-- RegionConfig dataclass of the source. -/
structure RegionConfig where
  name : String
  bbox : Bbox
  initial_radius_m : ℚ
  min_radius_m : ℚ
  overlap_step_ratio : ℚ
deriving DecidableEq, Repr

/-- Cell dataclass of the source. -/
structure Cell where
  run_id : Nat
  region_name : String
  cell_key : String
  parent_cell_key : Option String
  depth : Nat
  center_lat : ℚ
  center_lng : ℚ
  radius_m : ℚ
  min_radius_m : ℚ
deriving DecidableEq, Repr

/-- meters_to_lat_degrees of the source. -/
def meters_to_lat_degrees (meters : ℚ) : ℚ := meters / 111320

/-- meters_to_lng_degrees of the source; cosd stands for the composite
math.cos(math.radians lat). -/
def meters_to_lng_degrees (cosd : ℚ → ℚ) (meters lat : ℚ) : ℚ :=
  let denom := 111320 * cosd lat
  if |denom| < 1 / 1000000000 then 0 else meters / denom

/-- split_cell of the source: four half-radius children offset diagonally by
0.8 times the child radius, or no children below the minimum radius floor. -/
def split_cell (cosd : ℚ → ℚ) (cell : Cell) : List Cell :=
  let next_radius := cell.radius_m / 2
  if next_radius < cell.min_radius_m then []
  else
    let offset_m := next_radius * 0.8
    let lat_off := meters_to_lat_degrees offset_m
    let lng_off := meters_to_lng_degrees cosd offset_m cell.center_lat
    let child := fun (idx : Nat) (dlat dlng : ℚ) =>
      { run_id := cell.run_id
        region_name := cell.region_name
        cell_key := cell.cell_key ++ "." ++ toString idx
        parent_cell_key := some cell.cell_key
        depth := cell.depth + 1
        center_lat := cell.center_lat + dlat
        center_lng := cell.center_lng + dlng
        radius_m := next_radius
        min_radius_m := cell.min_radius_m : Cell }
    [child 0 lat_off lng_off, child 1 lat_off (-lng_off),
     child 2 (-lat_off) lng_off, child 3 (-lat_off) (-lng_off)]

/-- Inner column loop of generate_initial_cells, with an explicit fuel
argument standing for the termination of the source while loop.  All claims
proved about it hold for every fuel value. -/
def gen_cols_fuel (rid : Nat) (region : RegionConfig) (lat : ℚ) (row : Nat)
    (lng_step : ℚ) : Nat → ℚ → Nat → List Cell
  | 0, _, _ => []
  | fuel + 1, lng, col =>
    if lng ≤ region.bbox.ne_lng + 1 / 1000000000 then
      { run_id := rid
        region_name := region.name
        cell_key := region.name ++ ":d0:r" ++ toString row ++ ":c" ++ toString col
        parent_cell_key := none
        depth := 0
        center_lat := lat
        center_lng := lng
        radius_m := region.initial_radius_m
        min_radius_m := region.min_radius_m : Cell } ::
      gen_cols_fuel rid region lat row lng_step fuel (lng + lng_step) (col + 1)
    else []

/-- Fuel bound for the column loop: the loop advances lng by lng_step each
iteration starting at sw_lng and stops past ne_lng plus the epsilon. -/
def col_fuel (region : RegionConfig) (lng_step : ℚ) : Nat :=
  (⌈(region.bbox.ne_lng + 1 / 1000000000 - region.bbox.sw_lng) / lng_step⌉).toNat + 1

/-- Outer row loop of generate_initial_cells; a non-positive longitude step
breaks out of the whole loop, returning no further rows, exactly as the
source break statement does. -/
def gen_rows_fuel (cosd : ℚ → ℚ) (rid : Nat) (region : RegionConfig)
    (step_m lat_step : ℚ) : Nat → ℚ → Nat → List Cell
  | 0, _, _ => []
  | fuel + 1, lat, row =>
    if lat ≤ region.bbox.ne_lat + 1 / 1000000000 then
      let lng_step := meters_to_lng_degrees cosd step_m lat
      if lng_step ≤ 0 then []
      else
        gen_cols_fuel rid region lat row lng_step (col_fuel region lng_step)
          region.bbox.sw_lng 0
          ++ gen_rows_fuel cosd rid region step_m lat_step fuel (lat + lat_step) (row + 1)
    else []

/-- generate_initial_cells of the source: row-major tiling of the bounding
box from the south-west corner, with the longitude step recomputed at each
row latitude. -/
def generate_initial_cells (cosd : ℚ → ℚ) (region : RegionConfig) (rid : Nat) : List Cell :=
  let step_m := max 1 (region.initial_radius_m * region.overlap_step_ratio)
  let lat_step := meters_to_lat_degrees step_m
  gen_rows_fuel cosd rid region step_m lat_step
    ((⌈(region.bbox.ne_lat + 1 / 1000000000 - region.bbox.sw_lat) / lat_step⌉).toNat + 1)
    region.bbox.sw_lat 0

/-- estimate_calls_for_radius of the source: worst-case call count of the
adaptive recursion.  The source recursion is well defined only for
min_radius_m strictly positive, which parse_regions enforces; the first
branch below is a totality guard for the embedding and is never reached
under that precondition. -/
def estimate_calls_for_radius (radius_m min_radius_m : ℚ) : Nat :=
  if _h1 : min_radius_m ≤ 0 then 1
  else if _h2 : radius_m / 2 < min_radius_m then 1
  else 1 + 4 * estimate_calls_for_radius (radius_m / 2) min_radius_m
termination_by (⌈radius_m / min_radius_m⌉).toNat
decreasing_by
  have hm : (0 : ℚ) < min_radius_m := not_le.mp _h1
  have h2 : min_radius_m ≤ radius_m / 2 := not_lt.mp _h2
  have hq : (2 : ℚ) ≤ radius_m / min_radius_m := by
    rw [le_div_iff₀ hm]
    linarith [h2]
  have hdd : radius_m / 2 / min_radius_m = radius_m / min_radius_m / 2 :=
    div_right_comm radius_m 2 min_radius_m
  have hceil2 : (2 : ℤ) ≤ ⌈radius_m / min_radius_m⌉ := by
    have h := Int.ceil_le_ceil hq
    rwa [show ⌈(2 : ℚ)⌉ = 2 by norm_num] at h
  have hstep : ⌈radius_m / min_radius_m / 2⌉ ≤ ⌈radius_m / min_radius_m⌉ - 1 := by
    have hle : radius_m / min_radius_m / 2 ≤ radius_m / min_radius_m - 1 := by linarith
    calc ⌈radius_m / min_radius_m / 2⌉ ≤ ⌈radius_m / min_radius_m - 1⌉ := Int.ceil_le_ceil hle
    _ = ⌈radius_m / min_radius_m⌉ - 1 := by
        rw [show (1 : ℚ) = ((1 : ℤ) : ℚ) by norm_num, Int.ceil_sub_int]
  rw [hdd]
  omega

/-- Row of the restaurants table (create_tables): unique google_place_id. -/
structure PlaceRow where
  id : Nat
  google_place_id : String
  name : String
  latitude : ℚ
  longitude : ℚ
  address : String
  price_level : Option Int
  business_status : String
deriving DecidableEq, Repr

/-- Row of the ingestion_runs table. -/
structure RunRow where
  id : Nat
  started_at : String
  finished_at : Option String
  status : String
  db_path : String
  config_path : String
  max_calls : Nat
  calls_used : Nat
  allow_prod_db : Nat
  resume_from_run_id : Option Nat
  error_message : Option String
deriving DecidableEq, Repr

/-- Row of the ingestion_cells table; UNIQUE(run_id, cell_key). -/
structure CellRow where
  id : Nat
  run_id : Nat
  region_name : String
  cell_key : String
  parent_cell_key : Option String
  depth : Nat
  center_lat : ℚ
  center_lng : ℚ
  radius_m : ℚ
  min_radius_m : ℚ
  status : String
  result_count : Option Nat
  inserted_count : Option Nat
  duplicate_count : Option Nat
  is_saturated : Option Nat
  error_message : Option String
  scheduled_at : String
  started_at : Option String
  finished_at : Option String
deriving DecidableEq, Repr

/-- Row of the ingestion_queries table, the append-only audit trail. -/
structure QueryRow where
  id : Nat
  run_id : Nat
  cell_id : Option Nat
  requested_at : String
  responded_at : Option String
  duration_ms : Option Int
  api_call_number : Nat
  http_status : Option Int
  result_count : Option Nat
  is_saturated : Option Nat
  error_message : Option String
deriving DecidableEq, Repr

/-- The SQLite store: the four tables as lists in insertion order, fresh
autoincrement counters, and a logical clock standing for wall-clock time. -/
structure DB where
  restaurants : List PlaceRow
  runs : List RunRow
  cells : List CellRow
  queries : List QueryRow
  next_restaurant_id : Nat
  next_run_id : Nat
  next_cell_id : Nat
  next_query_id : Nat
  clock : Nat
deriving DecidableEq, Repr

/-- utc_now_iso of the source, modelled as reading the logical clock. -/
def utc_now_iso (db : DB) : String × DB :=
  (toString db.clock, { db with clock := db.clock + 1 })

/-- Existence test backing the UNIQUE(run_id, cell_key) constraint. -/
def cell_exists (cells : List CellRow) (rid : Nat) (key : String) : Bool :=
  cells.any (fun r => r.run_id == rid && r.cell_key == key)

/-- A fresh ingestion_cells row as built by insert_cells for one Cell. -/
def cell_row_of (id : Nat) (c : Cell) (status now : String) : CellRow :=
  { id := id, run_id := c.run_id, region_name := c.region_name
    cell_key := c.cell_key, parent_cell_key := c.parent_cell_key
    depth := c.depth, center_lat := c.center_lat, center_lng := c.center_lng
    radius_m := c.radius_m, min_radius_m := c.min_radius_m, status := status
    result_count := none, inserted_count := none, duplicate_count := none
    is_saturated := none, error_message := none, scheduled_at := now
    started_at := none, finished_at := none }

/-- One INSERT OR IGNORE of the insert_cells executemany: skip the cell when
its (run_id, cell_key) pair already exists, else append a fresh row. -/
def insert_cells_step (now status : String) (acc : Nat × DB) (c : Cell) : Nat × DB :=
  let n := acc.1
  let db := acc.2
  if cell_exists db.cells c.run_id c.cell_key then (n, db)
  else
    (n + 1,
     { db with cells := db.cells ++ [cell_row_of db.next_cell_id c status now]
               next_cell_id := db.next_cell_id + 1 })

/-- insert_cells of the source: idempotent batch insert returning the number
of rows actually inserted (the cursor rowcount). -/
def insert_cells (db : DB) (cs : List Cell) (status : String) : Nat × DB :=
  let p := utc_now_iso db
  if cs.isEmpty then (0, p.2)
  else cs.foldl (insert_cells_step p.1 status) (0, p.2)

/-- Resumable run statuses of get_latest_resumable_run. -/
def resumable_status (s : String) : Bool :=
  s == "running" || s == "stopped" || s == "failed"

/-- Accumulator step selecting the resumable run with the largest id. -/
def latest_resumable_step (acc : Option RunRow) (r : RunRow) : Option RunRow :=
  if resumable_status r.status then
    match acc with
    | none => some r
    | some b => if b.id < r.id then some r else some b
  else acc

/-- get_latest_resumable_run of the source: the resumable run with the
largest id (ORDER BY id DESC LIMIT 1). -/
def get_latest_resumable_run (db : DB) : Option RunRow :=
  db.runs.foldl latest_resumable_step none

/-- create_run of the source: insert a fresh running run row with
calls_used 0 and return its id. -/
def create_run (db : DB) (db_path config_path : String) (max_calls : Nat)
    (allow_prod_db : Bool) (resume_from_run_id : Option Nat) : Nat × DB :=
  let p := utc_now_iso db
  let rid := p.2.next_run_id
  (rid,
   { p.2 with
       runs := p.2.runs ++
         [{ id := rid, started_at := p.1, finished_at := none, status := stRunning
            db_path := db_path, config_path := config_path, max_calls := max_calls
            calls_used := 0, allow_prod_db := if allow_prod_db then 1 else 0
            resume_from_run_id := resume_from_run_id, error_message := none }]
       next_run_id := rid + 1 })

/-- mark_run_finished of the source: set status, finished_at and
error_message (overwriting it with NULL when no message is given). -/
def mark_run_finished (db : DB) (rid : Nat) (status : String)
    (error_message : Option String) : DB :=
  let p := utc_now_iso db
  { p.2 with
      runs := p.2.runs.map (fun r =>
        if r.id == rid then
          { r with status := status, finished_at := some p.1
                   error_message := error_message }
        else r) }

/-- update_run_calls of the source. -/
def update_run_calls (db : DB) (rid : Nat) (calls_used : Nat) : DB :=
  { db with
      runs := db.runs.map (fun r =>
        if r.id == rid then { r with calls_used := calls_used } else r) }

/-- Predicate selecting the pending cells of a run. -/
def pending_for (rid : Nat) (r : CellRow) : Bool :=
  r.run_id == rid && r.status == "pending"

/-- Accumulator step selecting the pending cell with the smallest id. -/
def oldest_pending_step (rid : Nat) (acc : Option CellRow) (r : CellRow) : Option CellRow :=
  if pending_for rid r then
    match acc with
    | none => some r
    | some b => if r.id < b.id then some r else some b
  else acc

/-- The oldest pending cell of a run (SELECT ... WHERE status pending
ORDER BY id LIMIT 1). -/
def oldest_pending (db : DB) (rid : Nat) : Option CellRow :=
  db.cells.foldl (oldest_pending_step rid) none

/-- claim_next_pending_cell of the source: transition the oldest pending
cell to processing, stamp started_at, clear error_message, and re-select the
updated row. -/
def claim_next_pending_cell (db : DB) (rid : Nat) : Option CellRow × DB :=
  match oldest_pending db rid with
  | none => (none, db)
  | some row =>
    let p := utc_now_iso db
    let db2 :=
      { p.2 with
          cells := p.2.cells.map (fun r =>
            if r.id == row.id then
              { r with status := stProcessing, started_at := some p.1
                       error_message := none }
            else r) }
    (db2.cells.find? (fun r => r.id == row.id), db2)

/-- requeue_processing_cells of the source: return cells stuck in processing
to pending, clearing started_at; the result counts the rows updated. -/
def requeue_processing_cells (db : DB) (rid : Nat) : Nat × DB :=
  (((db.cells.filter (fun r => r.run_id == rid && r.status == "processing"))).length,
   { db with
       cells := db.cells.map (fun r =>
         if r.run_id == rid && r.status == "processing" then
           { r with status := stPending, started_at := none }
         else r) })

/-- update_cell_success of the source. -/
def update_cell_success (db : DB) (cell_id : Nat) (status : String)
    (result_count inserted_count duplicate_count : Nat) (is_saturated : Bool) : DB :=
  let p := utc_now_iso db
  { p.2 with
      cells := p.2.cells.map (fun r =>
        if r.id == cell_id then
          { r with status := status, result_count := some result_count
                   inserted_count := some inserted_count
                   duplicate_count := some duplicate_count
                   is_saturated := some (if is_saturated then 1 else 0)
                   finished_at := some p.1, error_message := none }
        else r) }

/-- update_cell_error of the source: status error with the message truncated
to 1000 characters. -/
def update_cell_error (db : DB) (cell_id : Nat) (error_message : String) : DB :=
  let p := utc_now_iso db
  { p.2 with
      cells := p.2.cells.map (fun r =>
        if r.id == cell_id then
          { r with status := stError, error_message := some (error_message.take 1000)
                   finished_at := some p.1 }
        else r) }

/-- write_query_row of the source: append one audit row; the Optional bool
is_saturated is stored as 1, 0 or NULL. -/
def write_query_row (db : DB) (rid : Nat) (cell_id : Option Nat)
    (requested_at : String) (responded_at : Option String)
    (duration_ms : Option Int) (api_call_number : Nat) (http_status : Option Int)
    (result_count : Option Nat) (is_saturated : Option Bool)
    (error_message : Option String) : DB :=
  { db with
      queries := db.queries ++
        [{ id := db.next_query_id, run_id := rid, cell_id := cell_id
           requested_at := requested_at, responded_at := responded_at
           duration_ms := duration_ms, api_call_number := api_call_number
           http_status := http_status, result_count := result_count
           is_saturated :=
             match is_saturated with
             | some true => some 1
             | some false => some 0
             | none => none
           error_message := error_message }]
      next_query_id := db.next_query_id + 1 }

/-- Raw place record returned by the external search API, with the fields
the source reads; a missing location yields none for both coordinates. -/
structure RawPlace where
  id : Option String
  location_lat : Option ℚ
  location_lng : Option ℚ
  displayName_text : Option String
  formattedAddress : Option String
  businessStatus : Option String
  priceLevel : Option Int
deriving DecidableEq, Repr

/-- Normalized place tuple produced by normalize_place. -/
structure NormPlace where
  place_id : String
  name : String
  latitude : ℚ
  longitude : ℚ
  address : String
  price_level : Option Int
  business_status : String
deriving DecidableEq, Repr

/-- Python str.strip: drop whitespace from both ends (implemented on the
character list so that concrete witnesses evaluate inside the kernel). -/
def py_strip (s : String) : String :=
  String.mk (((s.data.dropWhile Char.isWhitespace).reverse.dropWhile
    Char.isWhitespace).reverse)

/-- normalize_place of the source.  A missing or empty id, or a missing
coordinate, drops the record; empty display names fall back to Unnamed and
empty business statuses to OPERATIONAL, following Python truthiness. -/
def normalize_place (p : RawPlace) : Option NormPlace :=
  match p.id, p.location_lat, p.location_lng with
  | some pid, some lat, some lng =>
    if pid == "" then none
    else
      let name0 :=
        match p.displayName_text with
        | none => "Unnamed"
        | some t => if t == "" then "Unnamed" else t
      some
        { place_id := pid
          name := if py_strip name0 == "" then "Unnamed" else py_strip name0
          latitude := lat
          longitude := lng
          address := p.formattedAddress.getD ""
          price_level := p.priceLevel
          business_status :=
            match p.businessStatus with
            | none => "OPERATIONAL"
            | some b => if b == "" then "OPERATIONAL" else b }
  | _, _, _ => none

/-- load_all_existing_place_ids of the source: the dedup seed set, modelled
as the list of stored ids used only through membership. -/
def load_all_existing_place_ids (db : DB) : List String :=
  db.restaurants.map (fun r => r.google_place_id)

/-- One iteration of the insert_places loop over the raw places: skip
malformed records, count a seen id as duplicate, otherwise INSERT OR IGNORE
into restaurants and add the id to the seen set. -/
def insert_places_step (acc : Nat × Nat × List String × DB) (raw : RawPlace) :
    Nat × Nat × List String × DB :=
  let inserted := acc.1
  let duplicates := acc.2.1
  let seen := acc.2.2.1
  let db := acc.2.2.2
  match normalize_place raw with
  | none => acc
  | some np =>
    if np.place_id ∈ seen then (inserted, duplicates + 1, seen, db)
    else
      let already := db.restaurants.any (fun r => r.google_place_id == np.place_id)
      let db2 :=
        if already then db
        else
          { db with
              restaurants := db.restaurants ++
                [{ id := db.next_restaurant_id, google_place_id := np.place_id
                   name := np.name, latitude := np.latitude, longitude := np.longitude
                   address := np.address, price_level := np.price_level
                   business_status := np.business_status }]
              next_restaurant_id := db.next_restaurant_id + 1 }
      if already then (inserted, duplicates + 1, seen ++ [np.place_id], db2)
      else (inserted + 1, duplicates, seen ++ [np.place_id], db2)

/-- insert_places of the source: returns (inserted, duplicates, seen, db). -/
def insert_places (db : DB) (places : List RawPlace) (seen : List String) :
    Nat × Nat × List String × DB :=
  places.foldl insert_places_step (0, 0, seen, db)

/-- Outcome of one fetch_places_nearby call: either the parsed place list
with the HTTP status code, or the exception path carrying the stringified
error and the optional response status of the exception. -/
inductive FetchResult where
  | success (places : List RawPlace) (status_code : Int)
  | failure (error : String) (http_status : Option Int)
deriving DecidableEq, Repr

/-- Environment of a run: the external search API as an oracle indexed by
the api call number, the perf_counter durations, and the cosine function of
the geometry helpers. -/
structure Env where
  oracle : Nat → FetchResult
  duration : Nat → Int
  cosd : ℚ → ℚ

/-- Observable events of the orchestrator loop, used to state the order in
which the budget is charged and the external call is issued. -/
inductive Event where
  | persistCalls (n : Nat)
  | apiCall (n : Nat)
deriving DecidableEq, Repr

/-- In-memory state of the run_ingestion loop between iterations. -/
structure LoopState where
  db : DB
  calls_used : Nat
  seen_place_ids : List String
  total_inserted : Nat
  total_duplicates : Nat
  saturated_cells_processed : Nat
deriving Repr

/-- Reconstruction of the Cell value from a claimed row, as run_ingestion
does (the run_id field is taken from the loop variable, not the row). -/
def cell_of_row (rid : Nat) (row : CellRow) : Cell :=
  { run_id := rid, region_name := row.region_name, cell_key := row.cell_key
    parent_cell_key := row.parent_cell_key, depth := row.depth
    center_lat := row.center_lat, center_lng := row.center_lng
    radius_m := row.radius_m, min_radius_m := row.min_radius_m }

/-- Body of one loop iteration of run_ingestion after a cell was claimed:
charge the budget, persist it, issue the external call, and handle the
success and failure outcomes exactly as lines 843-927 of the source do. -/
def run_loop_iteration (env : Env) (rid : Nat) (s : LoopState) (db1 : DB)
    (row : CellRow) : List Event × LoopState :=
  let cell_id := row.id
  let cell := cell_of_row rid row
  let q1 := utc_now_iso db1
  let requested_at := q1.1
  let calls := s.calls_used + 1
  let db3 := update_run_calls q1.2 rid calls
  match env.oracle calls with
  | .success places status_code =>
    let duration_ms := env.duration calls
    let is_saturated := SATURATION_THRESHOLD ≤ places.length
    let ins := insert_places db3 places s.seen_place_ids
    let inserted_count := ins.1
    let duplicate_count := ins.2.1
    let children := if is_saturated then split_cell env.cosd cell else []
    let db5 := if children.isEmpty then ins.2.2.2 else (insert_cells ins.2.2.2 children stPending).2
    let cell_status := if children.isEmpty then stDone else stSplit
    let db6 := update_cell_success db5 cell_id cell_status places.length
      inserted_count duplicate_count is_saturated
    let q2 := utc_now_iso db6
    let db8 := write_query_row q2.2 rid (some cell_id) requested_at (some q2.1)
      (some duration_ms) calls (some status_code) (some places.length)
      (some is_saturated) none
    ([Event.persistCalls calls, Event.apiCall calls],
     { db := db8, calls_used := calls, seen_place_ids := ins.2.2.1
       total_inserted := s.total_inserted + inserted_count
       total_duplicates := s.total_duplicates + duplicate_count
       saturated_cells_processed :=
         s.saturated_cells_processed + (if is_saturated then 1 else 0) })
  | .failure err http =>
    let duration_ms := env.duration calls
    let db4 := update_cell_error db3 cell_id err
    let q2 := utc_now_iso db4
    let db6 := write_query_row q2.2 rid (some cell_id) requested_at (some q2.1)
      (some duration_ms) calls http none none (some err)
    ([Event.persistCalls calls, Event.apiCall calls],
     { db := db6, calls_used := calls, seen_place_ids := s.seen_place_ids
       total_inserted := s.total_inserted, total_duplicates := s.total_duplicates
       saturated_cells_processed := s.saturated_cells_processed })

/-- The while loop of run_ingestion with explicit fuel: check the budget,
claim the next pending cell or finish, run one iteration and recurse.  The
entry point run_loop supplies provably sufficient fuel. -/
def run_loop_fuel (env : Env) (rid effMax : Nat) :
    Nat → LoopState → Option (List Event × String × LoopState)
  | 0, _ => none
  | fuel + 1, s =>
    if effMax ≤ s.calls_used then
      some ([], stStopped, { s with db := mark_run_finished s.db rid stStopped none })
    else
      match claim_next_pending_cell s.db rid with
      | (none, db1) =>
        some ([], stCompleted, { s with db := mark_run_finished db1 rid stCompleted none })
      | (some row, db1) =>
        let step := run_loop_iteration env rid s db1 row
        match run_loop_fuel env rid effMax fuel step.2 with
        | none => none
        | some r => some (step.1 ++ r.1, r.2.1, r.2.2)

/-- Entry point of the orchestrator loop.  The fuel effMax - calls + 1 is
sufficient because every iteration that recurses increments calls_used and
the budget check stops the loop once calls_used reaches effMax; sufficiency
is proved below, so the default of getD is never returned. -/
def run_loop (env : Env) (rid effMax : Nat) (s : LoopState) :
    List Event × String × LoopState :=
  (run_loop_fuel env rid effMax (effMax - s.calls_used + 1) s).getD ([], "", s)

/-- Effective call cap of run_ingestion: the requested cap clamped to the
hard ceiling, or the ceiling when no cap is requested. -/
def effective_max_calls (requested : Option Int) : Int :=
  match requested with
  | some v => min v HARD_MAX_CALLS
  | none => HARD_MAX_CALLS

/-- Resume branch of run_ingestion (lines 787-796): find the latest
resumable run, keep its stored calls_used, requeue its processing cells, and
overwrite its status to running and its max_calls with the effective cap of
the current invocation. -/
def resume_prepare (db : DB) (effMax : Nat) : Option (Nat × Nat × DB) :=
  match get_latest_resumable_run db with
  | none => none
  | some resumable =>
    let rid := resumable.id
    let calls := resumable.calls_used
    let db1 := (requeue_processing_cells db rid).2
    let db2 :=
      { db1 with
          runs := db1.runs.map (fun r =>
            if r.id == rid then { r with status := stRunning, max_calls := effMax }
            else r) }
    some (rid, calls, db2)

/-- Loop state at the start of the while loop: the dedup set is primed from
the whole restaurants table and the session totals start at zero. -/
def initial_loop_state (db : DB) (calls : Nat) : LoopState :=
  { db := db, calls_used := calls
    seen_place_ids := load_all_existing_place_ids db
    total_inserted := 0, total_duplicates := 0, saturated_cells_processed := 0 }

/-- run_ingestion with the resume flag, from finding the resumable run to
the end of the loop; none when no resumable run exists (the source then
falls through to creating a fresh run). -/
def resume_and_loop (env : Env) (db : DB) (effMax : Nat) :
    Option (List Event × String × LoopState) :=
  match resume_prepare db effMax with
  | none => none
  | some r => some (run_loop env r.1 effMax (initial_loop_state r.2.2 r.2.1))

/-- Worst-case number of calls a pending cell can still cost, the potential
used to prove that a sufficient budget drives a run to completion. -/
def cell_potential (r : CellRow) : Nat :=
  estimate_calls_for_radius r.radius_m r.min_radius_m

/-- Total potential of the pending cells of a run. -/
def pending_potential (cells : List CellRow) (rid : Nat) : Nat :=
  ((cells.filter (pending_for rid)).map cell_potential).sum

/-- Well-formedness of the cells table maintained by the orchestrator: row
ids are distinct and below the autoincrement counter, and every minimum
radius is positive (parse_regions enforces the latter for initial cells
and split_cell children inherit it). -/
def cells_wf (db : DB) : Prop :=
  (db.cells.map CellRow.id).Nodup ∧
  (∀ r ∈ db.cells, r.id < db.next_cell_id) ∧
  (∀ r ∈ db.cells, 0 < r.min_radius_m)

instance (db : DB) : Decidable (cells_wf db) := by
  unfold cells_wf
  infer_instance

/-- Constant cosine used by concrete witnesses (its value at any latitude of
the witness inputs is irrelevant to the verified properties). -/
def const_cosd : ℚ → ℚ := fun _ => 1

/-- Concrete cell used by the witnesses of the splitter claims. -/
def wCell : Cell :=
  { run_id := 7, region_name := "mission", cell_key := "mission:d0:r0:c0"
    parent_cell_key := none, depth := 0, center_lat := 37, center_lng := -122
    radius_m := 100, min_radius_m := 50 }

/-- Empty store used as a base for concrete witnesses. -/
def wDB0 : DB :=
  { restaurants := [], runs := [], cells := [], queries := []
    next_restaurant_id := 1, next_run_id := 1, next_cell_id := 1
    next_query_id := 1, clock := 0 }

/-- Raw place record used by the dedup witness. -/
def wRaw : RawPlace :=
  { id := some "p1", location_lat := some 1, location_lng := some 2
    displayName_text := some "Xp", formattedAddress := none
    businessStatus := none, priceLevel := none }

/-- Stopped run row used by the resume witnesses. -/
def wRun1 : RunRow :=
  { id := 1, started_at := "0", finished_at := some "9", status := "stopped"
    db_path := "trial", config_path := "cfg", max_calls := 5, calls_used := 5
    allow_prod_db := 0, resume_from_run_id := none, error_message := none }

/-- Store holding only the stopped run wRun1. -/
def wDBr : DB :=
  { restaurants := [], runs := [wRun1], cells := [], queries := []
    next_restaurant_id := 1, next_run_id := 2, next_cell_id := 1
    next_query_id := 1, clock := 10 }

/-- Event block emitted by the loop for calls start, start+1, ...,
start+len-1: each call persists the incremented counter first and then
issues the external request. -/
def call_events : Nat → Nat → List Event
  | _, 0 => []
  | start, len + 1 =>
    Event.persistCalls start :: Event.apiCall start :: call_events (start + 1) len

/-- Number of external API calls recorded in a trace. -/
def count_api (evs : List Event) : Nat :=
  evs.countP (fun e => match e with | Event.apiCall _ => true | _ => false)

/-- Concrete region used by the grid generator witness, the example region
of the specification. -/
def wRegion : RegionConfig :=
  { name := "w"
    bbox := { sw_lat := 0, sw_lng := 0, ne_lat := 1 / 100, ne_lng := 1 / 100 }
    initial_radius_m := 100, min_radius_m := 50, overlap_step_ratio := 7 / 10 }

/-- Pending initial cell used by the loop witnesses. -/
def wCellRow1 : CellRow :=
  { id := 1, run_id := 1, region_name := "w", cell_key := "w:d0:r0:c0"
    parent_cell_key := none, depth := 0, center_lat := 0, center_lng := 0
    radius_m := 100, min_radius_m := 60, status := "pending"
    result_count := none, inserted_count := none, duplicate_count := none
    is_saturated := none, error_message := none, scheduled_at := "0"
    started_at := none, finished_at := none }

/-- Running run row with budget 1 used by the loop witnesses. -/
def wRunRow1 : RunRow :=
  { id := 1, started_at := "0", finished_at := none, status := "running"
    db_path := "trial", config_path := "cfg", max_calls := 1, calls_used := 0
    allow_prod_db := 0, resume_from_run_id := none, error_message := none }

/-- Store with one running run and one pending cell. -/
def wDBc1 : DB :=
  { restaurants := [], runs := [wRunRow1], cells := [wCellRow1], queries := []
    next_restaurant_id := 1, next_run_id := 2, next_cell_id := 2
    next_query_id := 1, clock := 1 }

/-- Environment whose external calls all succeed with an empty result
page. -/
def wEnvOk : Env :=
  { oracle := fun _ => FetchResult.success [] 200
    duration := fun _ => 0, cosd := fun _ => 1 }

/-- Loop state at the start of a fresh run over wDBc1. -/
def wState1 : LoopState := initial_loop_state wDBc1 0

/-- Pending splittable cell (half the radius still above the floor). -/
def wCellRow2 : CellRow :=
  { id := 1, run_id := 1, region_name := "w", cell_key := "w:d0:r0:c0"
    parent_cell_key := none, depth := 0, center_lat := 0, center_lng := 0
    radius_m := 100, min_radius_m := 50, status := "pending"
    result_count := none, inserted_count := none, duplicate_count := none
    is_saturated := none, error_message := none, scheduled_at := "0"
    started_at := none, finished_at := none }

/-- Store with one running run and the splittable cell wCellRow2. -/
def wDBc2 : DB :=
  { restaurants := [], runs := [wRunRow1], cells := [wCellRow2], queries := []
    next_restaurant_id := 1, next_run_id := 2, next_cell_id := 2
    next_query_id := 1, clock := 1 }

/-- Environment whose external calls return a saturated page of 18 raw
places. -/
def wEnvSat : Env :=
  { oracle := fun _ => FetchResult.success (List.replicate 18 wRaw) 200
    duration := fun _ => 0, cosd := fun _ => 1 }

/-- Environment whose external calls all fail with a transport error. -/
def wEnvErr : Env :=
  { oracle := fun _ => FetchResult.failure "boom" (some 500)
    duration := fun _ => 0, cosd := fun _ => 1 }

/-- Loop state at the start of a fresh run over wDBc2. -/
def wStateC3 : LoopState := initial_loop_state wDBc2 0

/-!  Theorems.  Everything below is a statement about the definitions above;
each claim of the specification corresponds to exactly one theorem. -/

theorem oldest_pending_step_cases (rid : Nat) (acc : Option CellRow) (x r : CellRow)
    (h : oldest_pending_step rid acc x = some r) :
    (r = x ∧ pending_for rid x = true) ∨ acc = some r := by
  unfold oldest_pending_step at h
  by_cases hx : pending_for rid x = true
  · rw [hx] at h
    simp only [if_true] at h
    cases acc with
    | none =>
      have h2 : some x = some r := h
      simp at h2
      exact Or.inl ⟨h2.symm, hx⟩
    | some b =>
      have h2 : (if x.id < b.id then some x else some b) = some r := h
      by_cases hlt : x.id < b.id
      · rw [if_pos hlt] at h2; simp at h2; exact Or.inl ⟨h2.symm, hx⟩
      · rw [if_neg hlt] at h2; exact Or.inr h2
  · simp only [Bool.not_eq_true] at hx
    rw [hx] at h
    simp only [Bool.false_eq_true, if_false] at h
    exact Or.inr h

theorem foldl_oldest_pending_mem (rid : Nat) :
    ∀ (l : List CellRow) (acc : Option CellRow) (r : CellRow),
      l.foldl (oldest_pending_step rid) acc = some r →
      (r ∈ l ∧ pending_for rid r = true) ∨ acc = some r := by
  intro l
  induction l with
  | nil => intro acc r h; simp at h; exact Or.inr (by rw [h])
  | cons x xs ih =>
    intro acc r h
    simp only [List.foldl_cons] at h
    rcases ih _ _ h with h1 | h2
    · exact Or.inl ⟨List.mem_cons_of_mem _ h1.1, h1.2⟩
    · rcases oldest_pending_step_cases rid acc x r h2 with h3 | h4
      · exact Or.inl ⟨by rw [h3.1]; exact List.mem_cons_self _ _, by rw [h3.1]; exact h3.2⟩
      · exact Or.inr h4

theorem oldest_pending_spec {db : DB} {rid : Nat} {r : CellRow}
    (h : oldest_pending db rid = some r) :
    r ∈ db.cells ∧ r.run_id = rid ∧ r.status = "pending" := by
  unfold oldest_pending at h
  rcases foldl_oldest_pending_mem rid db.cells none r h with h1 | h2
  · have hp := h1.2
    unfold pending_for at hp
    simp only [Bool.and_eq_true, beq_iff_eq] at hp
    exact ⟨h1.1, hp.1, hp.2⟩
  · cases h2

theorem latest_resumable_step_cases (acc : Option RunRow) (x r : RunRow)
    (h : latest_resumable_step acc x = some r) :
    (r = x ∧ resumable_status x.status = true) ∨ acc = some r := by
  unfold latest_resumable_step at h
  by_cases hx : resumable_status x.status = true
  · rw [hx] at h
    simp only [if_true] at h
    cases acc with
    | none =>
      have h2 : some x = some r := h
      simp at h2
      exact Or.inl ⟨h2.symm, hx⟩
    | some b =>
      have h2 : (if b.id < x.id then some x else some b) = some r := h
      by_cases hlt : b.id < x.id
      · rw [if_pos hlt] at h2; simp at h2; exact Or.inl ⟨h2.symm, hx⟩
      · rw [if_neg hlt] at h2; exact Or.inr h2
  · simp only [Bool.not_eq_true] at hx
    rw [hx] at h
    simp only [Bool.false_eq_true, if_false] at h
    exact Or.inr h

theorem foldl_latest_resumable_mem :
    ∀ (l : List RunRow) (acc : Option RunRow) (r : RunRow),
      l.foldl latest_resumable_step acc = some r →
      (r ∈ l ∧ resumable_status r.status = true) ∨ acc = some r := by
  intro l
  induction l with
  | nil => intro acc r h; simp at h; exact Or.inr (by rw [h])
  | cons x xs ih =>
    intro acc r h
    simp only [List.foldl_cons] at h
    rcases ih _ _ h with h1 | h2
    · exact Or.inl ⟨List.mem_cons_of_mem _ h1.1, h1.2⟩
    · rcases latest_resumable_step_cases acc x r h2 with h3 | h4
      · exact Or.inl ⟨by rw [h3.1]; exact List.mem_cons_self _ _, by rw [h3.1]; exact h3.2⟩
      · exact Or.inr h4

theorem get_latest_resumable_spec {db : DB} {r : RunRow}
    (h : get_latest_resumable_run db = some r) :
    r ∈ db.runs ∧
      (r.status = "running" ∨ r.status = "stopped" ∨ r.status = "failed") := by
  unfold get_latest_resumable_run at h
  rcases foldl_latest_resumable_mem db.runs none r h with h1 | h2
  · refine ⟨h1.1, ?_⟩
    have hs := h1.2
    unfold resumable_status at hs
    simp only [Bool.or_eq_true, beq_iff_eq] at hs
    tauto
  · cases h2

/-- C4: split_cell returns exactly four children when half the radius is at
least the minimum radius and none otherwise; each child halves the radius,
increments the depth, is keyed parent.0 through parent.3 with the parent as
parent_cell_key, inherits run_id, region_name and min_radius_m, and is
offset diagonally by 0.8 times the child radius (converted to degrees) in
the four quadrant directions. -/
theorem spec_c4 (cosd : ℚ → ℚ) (cell : Cell) :
    (cell.min_radius_m ≤ cell.radius_m / 2 →
      split_cell cosd cell =
        [ { run_id := cell.run_id, region_name := cell.region_name
            cell_key := cell.cell_key ++ "." ++ toString 0
            parent_cell_key := some cell.cell_key, depth := cell.depth + 1
            center_lat := cell.center_lat + meters_to_lat_degrees (cell.radius_m / 2 * 0.8)
            center_lng := cell.center_lng +
              meters_to_lng_degrees cosd (cell.radius_m / 2 * 0.8) cell.center_lat
            radius_m := cell.radius_m / 2, min_radius_m := cell.min_radius_m },
          { run_id := cell.run_id, region_name := cell.region_name
            cell_key := cell.cell_key ++ "." ++ toString 1
            parent_cell_key := some cell.cell_key, depth := cell.depth + 1
            center_lat := cell.center_lat + meters_to_lat_degrees (cell.radius_m / 2 * 0.8)
            center_lng := cell.center_lng +
              -(meters_to_lng_degrees cosd (cell.radius_m / 2 * 0.8) cell.center_lat)
            radius_m := cell.radius_m / 2, min_radius_m := cell.min_radius_m },
          { run_id := cell.run_id, region_name := cell.region_name
            cell_key := cell.cell_key ++ "." ++ toString 2
            parent_cell_key := some cell.cell_key, depth := cell.depth + 1
            center_lat := cell.center_lat + -(meters_to_lat_degrees (cell.radius_m / 2 * 0.8))
            center_lng := cell.center_lng +
              meters_to_lng_degrees cosd (cell.radius_m / 2 * 0.8) cell.center_lat
            radius_m := cell.radius_m / 2, min_radius_m := cell.min_radius_m },
          { run_id := cell.run_id, region_name := cell.region_name
            cell_key := cell.cell_key ++ "." ++ toString 3
            parent_cell_key := some cell.cell_key, depth := cell.depth + 1
            center_lat := cell.center_lat + -(meters_to_lat_degrees (cell.radius_m / 2 * 0.8))
            center_lng := cell.center_lng +
              -(meters_to_lng_degrees cosd (cell.radius_m / 2 * 0.8) cell.center_lat)
            radius_m := cell.radius_m / 2, min_radius_m := cell.min_radius_m } ]) ∧
    (cell.radius_m / 2 < cell.min_radius_m → split_cell cosd cell = []) := by
  constructor
  · intro h
    unfold split_cell
    rw [if_neg (not_lt.mpr h)]
  · intro h
    unfold split_cell
    rw [if_pos h]

/-- Witness for C4 at a concrete splittable cell. -/
theorem spec_c4_witness :
    (wCell.min_radius_m ≤ wCell.radius_m / 2) ∧
      (split_cell const_cosd wCell).length = 4 := by
  refine ⟨by norm_num [wCell], ?_⟩
  rw [(spec_c4 const_cosd wCell).1 (by norm_num [wCell])]
  rfl

theorem cell_exists_append_left {l t : List CellRow} {rid : Nat} {key : String}
    (h : cell_exists l rid key = true) : cell_exists (l ++ t) rid key = true := by
  unfold cell_exists at *
  rw [List.any_append, h]
  rfl

theorem insert_cells_step_of_exists {now status : String} {acc : Nat × DB} {c : Cell}
    (h : cell_exists acc.2.cells c.run_id c.cell_key = true) :
    insert_cells_step now status acc c = acc := by
  simp [insert_cells_step, h]

theorem insert_cells_step_of_not_exists {now status : String} {acc : Nat × DB} {c : Cell}
    (h : cell_exists acc.2.cells c.run_id c.cell_key = false) :
    insert_cells_step now status acc c =
      (acc.1 + 1,
       { acc.2 with
           cells := acc.2.cells ++ [cell_row_of acc.2.next_cell_id c status now]
           next_cell_id := acc.2.next_cell_id + 1 }) := by
  simp [insert_cells_step, h]

theorem insert_cells_foldl_cells_append (now status : String) :
    ∀ (cs : List Cell) (acc : Nat × DB),
      ∃ t, (cs.foldl (insert_cells_step now status) acc).2.cells = acc.2.cells ++ t := by
  intro cs
  induction cs with
  | nil => intro acc; exact ⟨[], by simp⟩
  | cons x xs ih =>
    intro acc
    simp only [List.foldl_cons]
    by_cases hx : cell_exists acc.2.cells x.run_id x.cell_key = true
    · rw [insert_cells_step_of_exists hx]
      exact ih acc
    · rw [insert_cells_step_of_not_exists (by simpa using hx)]
      rcases ih (acc.1 + 1,
        { acc.2 with
            cells := acc.2.cells ++ [cell_row_of acc.2.next_cell_id x status now]
            next_cell_id := acc.2.next_cell_id + 1 }) with ⟨t, ht⟩
      refine ⟨cell_row_of acc.2.next_cell_id x status now :: t, ?_⟩
      rw [ht]
      simp

theorem insert_cells_foldl_all_exist (now status : String) :
    ∀ (cs : List Cell) (acc : Nat × DB) (c : Cell), c ∈ cs →
      cell_exists ((cs.foldl (insert_cells_step now status) acc).2.cells)
        c.run_id c.cell_key = true := by
  intro cs
  induction cs with
  | nil => intro acc c hc; cases hc
  | cons x xs ih =>
    intro acc c hc
    simp only [List.foldl_cons]
    rcases List.mem_cons.mp hc with hcx | hcs
    · subst hcx
      have hstep : cell_exists ((insert_cells_step now status acc c).2.cells)
          c.run_id c.cell_key = true := by
        by_cases hx : cell_exists acc.2.cells c.run_id c.cell_key = true
        · rw [insert_cells_step_of_exists hx]; exact hx
        · rw [insert_cells_step_of_not_exists (by simpa using hx)]
          unfold cell_exists
          rw [List.any_append]
          simp [cell_row_of]
      rcases insert_cells_foldl_cells_append now status xs
        (insert_cells_step now status acc c) with ⟨t, ht⟩
      rw [ht]
      exact cell_exists_append_left hstep
    · exact ih _ c hcs

theorem insert_cells_foldl_id_of_all_exist (now status : String) :
    ∀ (cs : List Cell) (acc : Nat × DB),
      (∀ c ∈ cs, cell_exists acc.2.cells c.run_id c.cell_key = true) →
      cs.foldl (insert_cells_step now status) acc = acc := by
  intro cs
  induction cs with
  | nil => intro acc _; rfl
  | cons x xs ih =>
    intro acc h
    simp only [List.foldl_cons]
    rw [insert_cells_step_of_exists (h x (List.mem_cons_self _ _))]
    exact ih acc (fun c hc => h c (List.mem_cons_of_mem _ hc))

theorem insert_cells_all_exist (db : DB) (cs : List Cell) (status : String) :
    ∀ c ∈ cs, cell_exists (insert_cells db cs status).2.cells c.run_id c.cell_key = true := by
  intro c hc
  have hne : cs.isEmpty = false := by cases cs with | nil => cases hc | cons a l => rfl
  simp only [insert_cells, hne, Bool.false_eq_true, if_false]
  exact insert_cells_foldl_all_exist _ _ cs _ c hc

theorem insert_cells_cells_append (db : DB) (cs : List Cell) (status : String) :
    ∃ t, (insert_cells db cs status).2.cells = db.cells ++ t := by
  by_cases hcs : cs.isEmpty
  · exact ⟨[], by simp [insert_cells, hcs, utc_now_iso]⟩
  · have hne : cs.isEmpty = false := by simpa using hcs
    simp only [insert_cells, hne, Bool.false_eq_true, if_false]
    exact insert_cells_foldl_cells_append _ _ cs (0, (utc_now_iso db).2)

theorem insert_cells_noop (db : DB) (cs : List Cell) (status : String)
    (h : ∀ c ∈ cs, cell_exists db.cells c.run_id c.cell_key = true) :
    (insert_cells db cs status).1 = 0 ∧ (insert_cells db cs status).2.cells = db.cells := by
  by_cases hcs : cs.isEmpty
  · simp [insert_cells, hcs, utc_now_iso]
  · have hne : cs.isEmpty = false := by simpa using hcs
    simp only [insert_cells, hne, Bool.false_eq_true, if_false]
    rw [insert_cells_foldl_id_of_all_exist _ _ cs (0, (utc_now_iso db).2)
      (fun c hc => h c hc)]
    exact ⟨rfl, rfl⟩

/-- C5: insert_cells is idempotent.  Replaying the same batch of cells (the
same run_id and cell_key pairs) against the store inserts no new row (the
returned rowcount is zero) and leaves the cells table unchanged, because
rows are unique on (run_id, cell_key) and duplicates are ignored. -/
theorem spec_c5 (db : DB) (cs : List Cell) (status : String) :
    (insert_cells (insert_cells db cs status).2 cs status).1 = 0 ∧
    (insert_cells (insert_cells db cs status).2 cs status).2.cells =
      (insert_cells db cs status).2.cells :=
  insert_cells_noop _ cs status (insert_cells_all_exist db cs status)

theorem insert_places_step_of_none {acc : Nat × Nat × List String × DB} {raw : RawPlace}
    (h : normalize_place raw = none) : insert_places_step acc raw = acc := by
  simp [insert_places_step, h]

theorem insert_places_step_of_seen {acc : Nat × Nat × List String × DB} {raw : RawPlace}
    {np : NormPlace} (h : normalize_place raw = some np) (hs : np.place_id ∈ acc.2.2.1) :
    insert_places_step acc raw = (acc.1, acc.2.1 + 1, acc.2.2.1, acc.2.2.2) := by
  simp [insert_places_step, h, hs]

theorem insert_places_step_of_dup {acc : Nat × Nat × List String × DB} {raw : RawPlace}
    {np : NormPlace} (h : normalize_place raw = some np) (hns : np.place_id ∉ acc.2.2.1)
    (hex : acc.2.2.2.restaurants.any (fun r => r.google_place_id == np.place_id) = true) :
    insert_places_step acc raw =
      (acc.1, acc.2.1 + 1, acc.2.2.1 ++ [np.place_id], acc.2.2.2) := by
  simp [insert_places_step, h, hns, hex]

theorem insert_places_step_of_new {acc : Nat × Nat × List String × DB} {raw : RawPlace}
    {np : NormPlace} (h : normalize_place raw = some np) (hns : np.place_id ∉ acc.2.2.1)
    (hex : acc.2.2.2.restaurants.any (fun r => r.google_place_id == np.place_id) = false) :
    insert_places_step acc raw =
      (acc.1 + 1, acc.2.1, acc.2.2.1 ++ [np.place_id],
       { acc.2.2.2 with
           restaurants := acc.2.2.2.restaurants ++
             [{ id := acc.2.2.2.next_restaurant_id, google_place_id := np.place_id
                name := np.name, latitude := np.latitude, longitude := np.longitude
                address := np.address, price_level := np.price_level
                business_status := np.business_status }]
           next_restaurant_id := acc.2.2.2.next_restaurant_id + 1 }) := by
  simp [insert_places_step, h, hns, hex]

theorem insert_places_step_restaurants_append (acc : Nat × Nat × List String × DB)
    (raw : RawPlace) :
    ∃ t, (insert_places_step acc raw).2.2.2.restaurants = acc.2.2.2.restaurants ++ t := by
  rcases hn : normalize_place raw with _ | np
  · exact ⟨[], by rw [insert_places_step_of_none hn]; simp⟩
  · by_cases hs : np.place_id ∈ acc.2.2.1
    · exact ⟨[], by rw [insert_places_step_of_seen hn hs]; simp⟩
    · by_cases hex : acc.2.2.2.restaurants.any
        (fun r => r.google_place_id == np.place_id) = true
      · exact ⟨[], by rw [insert_places_step_of_dup hn hs hex]; simp⟩
      · refine ⟨_, by rw [insert_places_step_of_new hn hs (by simpa using hex)]⟩

theorem insert_places_step_seen_mono {acc : Nat × Nat × List String × DB} {raw : RawPlace}
    {x : String} (hx : x ∈ acc.2.2.1) : x ∈ (insert_places_step acc raw).2.2.1 := by
  rcases hn : normalize_place raw with _ | np
  · rw [insert_places_step_of_none hn]; exact hx
  · by_cases hs : np.place_id ∈ acc.2.2.1
    · rw [insert_places_step_of_seen hn hs]; exact hx
    · by_cases hex : acc.2.2.2.restaurants.any
        (fun r => r.google_place_id == np.place_id) = true
      · rw [insert_places_step_of_dup hn hs hex]
        exact List.mem_append_left _ hx
      · rw [insert_places_step_of_new hn hs (by simpa using hex)]
        exact List.mem_append_left _ hx

theorem insert_places_foldl_restaurants_append :
    ∀ (places : List RawPlace) (acc : Nat × Nat × List String × DB),
      ∃ t, (places.foldl insert_places_step acc).2.2.2.restaurants =
        acc.2.2.2.restaurants ++ t := by
  intro places
  induction places with
  | nil => intro acc; exact ⟨[], by simp⟩
  | cons raw rest ih =>
    intro acc
    simp only [List.foldl_cons]
    rcases ih (insert_places_step acc raw) with ⟨t1, ht1⟩
    rcases insert_places_step_restaurants_append acc raw with ⟨t0, ht0⟩
    exact ⟨t0 ++ t1, by rw [ht1, ht0, List.append_assoc]⟩

theorem insert_places_foldl_seen_mono :
    ∀ (places : List RawPlace) (acc : Nat × Nat × List String × DB) (x : String),
      x ∈ acc.2.2.1 → x ∈ (places.foldl insert_places_step acc).2.2.1 := by
  intro places
  induction places with
  | nil => intro acc x hx; exact hx
  | cons raw rest ih =>
    intro acc x hx
    simp only [List.foldl_cons]
    exact ih _ x (insert_places_step_seen_mono hx)

/-- C6: place deduplication.  First, insert_places only ever appends to the
restaurants table, so a place row is never modified after first discovery.
Second, one insertion step on a raw place whose external id was already seen
in the run or already stored increments the duplicate counter, leaves the
inserted counter alone, and leaves the restaurants table unchanged.  Third,
every id processed by insert_places ends up in the seen set, so a later
occurrence, from the same or a different cell, takes the duplicate path. -/
theorem spec_c6 :
    (∀ (db : DB) (places : List RawPlace) (seen : List String),
       ∃ t, (insert_places db places seen).2.2.2.restaurants = db.restaurants ++ t) ∧
    (∀ (acc : Nat × Nat × List String × DB) (raw : RawPlace) (np : NormPlace),
       normalize_place raw = some np →
       (np.place_id ∈ acc.2.2.1 ∨
        np.place_id ∈ load_all_existing_place_ids acc.2.2.2) →
       (insert_places_step acc raw).1 = acc.1 ∧
       (insert_places_step acc raw).2.1 = acc.2.1 + 1 ∧
       (insert_places_step acc raw).2.2.2.restaurants = acc.2.2.2.restaurants) ∧
    (∀ (db : DB) (places : List RawPlace) (seen : List String) (raw : RawPlace)
       (np : NormPlace), raw ∈ places → normalize_place raw = some np →
       np.place_id ∈ (insert_places db places seen).2.2.1) := by
  refine ⟨?_, ?_, ?_⟩
  · intro db places seen
    exact insert_places_foldl_restaurants_append places (0, 0, seen, db)
  · intro acc raw np hn hmem
    by_cases hs : np.place_id ∈ acc.2.2.1
    · rw [insert_places_step_of_seen hn hs]
      exact ⟨rfl, rfl, rfl⟩
    · have hex : acc.2.2.2.restaurants.any
          (fun r => r.google_place_id == np.place_id) = true := by
        rcases hmem with hmem | hmem
        · exact absurd hmem hs
        · unfold load_all_existing_place_ids at hmem
          rcases List.mem_map.mp hmem with ⟨r, hr, hrid⟩
          rw [List.any_eq_true]
          exact ⟨r, hr, by simp [hrid]⟩
      rw [insert_places_step_of_dup hn hs hex]
      exact ⟨rfl, rfl, rfl⟩
  · intro db places seen raw np hraw hn
    unfold insert_places
    have main : ∀ (l : List RawPlace) (acc : Nat × Nat × List String × DB),
        raw ∈ l → np.place_id ∈ (l.foldl insert_places_step acc).2.2.1 := by
      intro l
      induction l with
      | nil => intro acc h; cases h
      | cons x xs ih =>
        intro acc hx
        simp only [List.foldl_cons]
        rcases List.mem_cons.mp hx with heq | hmem
        · subst heq
          have hstep : np.place_id ∈ (insert_places_step acc raw).2.2.1 := by
            by_cases hs : np.place_id ∈ acc.2.2.1
            · exact insert_places_step_seen_mono hs
            · by_cases hex : acc.2.2.2.restaurants.any
                (fun r => r.google_place_id == np.place_id) = true
              · rw [insert_places_step_of_dup hn hs hex]
                exact List.mem_append_right _ (List.mem_singleton_self _)
              · rw [insert_places_step_of_new hn hs (by simpa using hex)]
                exact List.mem_append_right _ (List.mem_singleton_self _)
          exact insert_places_foldl_seen_mono xs _ _ hstep
        · exact ih _ hmem
    exact main places (0, 0, seen, db) hraw

/-- Witness for C6: a raw place whose id is already in the seen set takes
the duplicate path and leaves the store untouched. -/
theorem spec_c6_witness :
    (insert_places_step (0, 0, ["p1"], wDB0) wRaw).1 = 0 ∧
    (insert_places_step (0, 0, ["p1"], wDB0) wRaw).2.1 = 0 + 1 ∧
    (insert_places_step (0, 0, ["p1"], wDB0) wRaw).2.2.2.restaurants =
      wDB0.restaurants := by
  exact spec_c6.2.1 (0, 0, ["p1"], wDB0) wRaw
    { place_id := "p1", name := "Xp", latitude := 1, longitude := 2
      address := "", price_level := none, business_status := "OPERATIONAL" }
    (by decide) (Or.inl (by simp))

theorem requeue_runs_unchanged (db : DB) (rid : Nat) :
    (requeue_processing_cells db rid).2.runs = db.runs := rfl

/-- C10: when the resume flag finds a resumable run, the orchestrator
overwrites that run row with status running and max_calls equal to the
effective cap of the current invocation (the requested cap clamped to the
4000 hard ceiling), while calls_used and every other run field keep their
stored values and all other run rows are untouched. -/
theorem spec_c10 (db : DB) (requested : Option Int) (r : RunRow)
    (hres : get_latest_resumable_run db = some r) :
    ∃ db2, resume_prepare db (effective_max_calls requested).toNat =
        some (r.id, r.calls_used, db2) ∧
      db2.runs = db.runs.map (fun q =>
        if q.id == r.id then
          { q with status := stRunning
                   max_calls := (effective_max_calls requested).toNat }
        else q) ∧
      (∀ q ∈ db2.runs, q.id = r.id →
        q.status = "running" ∧ q.max_calls = (effective_max_calls requested).toNat) ∧
      (∀ q ∈ db.runs, q.id = r.id →
        ∃ q2 ∈ db2.runs, q2.id = q.id ∧ q2.calls_used = q.calls_used ∧
          q2.started_at = q.started_at ∧ q2.finished_at = q.finished_at ∧
          q2.db_path = q.db_path ∧ q2.config_path = q.config_path ∧
          q2.allow_prod_db = q.allow_prod_db ∧
          q2.resume_from_run_id = q.resume_from_run_id ∧
          q2.error_message = q.error_message) ∧
      (∀ q ∈ db.runs, q.id ≠ r.id → q ∈ db2.runs) ∧
      (∀ v : Int, effective_max_calls (some v) = min v HARD_MAX_CALLS) := by
  refine ⟨{ (requeue_processing_cells db r.id).2 with
      runs := (requeue_processing_cells db r.id).2.runs.map (fun q =>
        if q.id == r.id then
          { q with status := stRunning, max_calls := (effective_max_calls requested).toNat }
        else q) }, ?_, rfl, ?_, ?_, ?_, fun v => rfl⟩
  · simp only [resume_prepare, hres]
  · intro q hq hqid
    rcases List.mem_map.mp hq with ⟨q0, hq0, hfq⟩
    by_cases h0 : q0.id = r.id
    · rw [← hfq]
      simp [h0, stRunning]
    · exfalso
      rw [← hfq] at hqid
      simp only [beq_iff_eq, h0, if_false] at hqid
  · intro q hq hqid
    refine ⟨_, List.mem_map_of_mem _ hq, ?_⟩
    simp [hqid]
  · intro q hq hqid
    have hfq : (fun q2 : RunRow =>
        if q2.id == r.id then
          { q2 with status := stRunning, max_calls := (effective_max_calls requested).toNat }
        else q2) q = q := by
      simp only [beq_iff_eq, hqid, if_false]
    exact hfq ▸ List.mem_map_of_mem _ hq

/-- Witness for C10 on a store holding one stopped run, resumed with a
requested cap of 7. -/
theorem spec_c10_witness :
    get_latest_resumable_run wDBr = some wRun1 ∧
    ∃ db2, resume_prepare wDBr (effective_max_calls (some 7)).toNat =
      some (wRun1.id, wRun1.calls_used, db2) ∧
      (∀ q ∈ db2.runs, q.id = wRun1.id →
        q.status = "running" ∧ q.max_calls = (effective_max_calls (some 7)).toNat) := by
  have h := spec_c10 wDBr (some 7) wRun1 (by decide)
  rcases h with ⟨db2, h1, _, h3, _⟩
  exact ⟨by decide, db2, h1, h3⟩

theorem gen_cols_fuel_mem (rid : Nat) (region : RegionConfig) (lat : ℚ) (row : Nat)
    (lng_step : ℚ) (hstep : 0 < lng_step) :
    ∀ (fuel : Nat) (lng : ℚ) (col : Nat) (lo : ℚ), lo ≤ lng →
      ∀ c ∈ gen_cols_fuel rid region lat row lng_step fuel lng col,
        c.center_lat = lat ∧ lo ≤ c.center_lng ∧
        c.center_lng ≤ region.bbox.ne_lng + 1 / 1000000000 := by
  intro fuel
  induction fuel with
  | zero => intro lng col lo hlo c hc; cases hc
  | succ n ih =>
    intro lng col lo hlo c hc
    simp only [gen_cols_fuel] at hc
    by_cases hle : lng ≤ region.bbox.ne_lng + 1 / 1000000000
    · rw [if_pos hle] at hc
      rcases List.mem_cons.mp hc with hhead | htail
      · subst hhead
        exact ⟨rfl, hlo, hle⟩
      · exact ih (lng + lng_step) (col + 1) lo (by linarith) c htail
    · rw [if_neg hle] at hc
      cases hc

theorem gen_rows_fuel_mem (cosd : ℚ → ℚ) (rid : Nat) (region : RegionConfig)
    (step_m lat_step : ℚ) (hlat_step : 0 < lat_step) :
    ∀ (fuel : Nat) (lat : ℚ) (row : Nat) (lo : ℚ), lo ≤ lat →
      ∀ c ∈ gen_rows_fuel cosd rid region step_m lat_step fuel lat row,
        lo ≤ c.center_lat ∧ c.center_lat ≤ region.bbox.ne_lat + 1 / 1000000000 ∧
        region.bbox.sw_lng ≤ c.center_lng ∧
        c.center_lng ≤ region.bbox.ne_lng + 1 / 1000000000 ∧
        0 < meters_to_lng_degrees cosd step_m c.center_lat := by
  intro fuel
  induction fuel with
  | zero => intro lat row lo hlo c hc; cases hc
  | succ n ih =>
    intro lat row lo hlo c hc
    simp only [gen_rows_fuel] at hc
    by_cases hle : lat ≤ region.bbox.ne_lat + 1 / 1000000000
    · rw [if_pos hle] at hc
      by_cases hls : meters_to_lng_degrees cosd step_m lat ≤ 0
      · rw [if_pos hls] at hc
        cases hc
      · rw [if_neg hls] at hc
        have hpos : 0 < meters_to_lng_degrees cosd step_m lat := not_le.mp hls
        rcases List.mem_append.mp hc with hcol | hrow
        · rcases gen_cols_fuel_mem rid region lat row _ hpos _
            region.bbox.sw_lng 0 region.bbox.sw_lng le_rfl c hcol with ⟨hclat, h1, h2⟩
          exact ⟨by rw [hclat]; exact hlo, by rw [hclat]; exact hle, h1, h2,
            by rw [hclat]; exact hpos⟩
        · exact ih (lat + lat_step) (row + 1) lo (by linarith) c hrow
    · rw [if_neg hle] at hc
      cases hc

theorem eps_le_lat_step {step_m : ℚ} (h1 : 1 ≤ step_m) :
    (1 : ℚ) / 1000000000 ≤ meters_to_lat_degrees step_m := by
  unfold meters_to_lat_degrees
  rw [div_le_div_iff (by norm_num) (by norm_num)]
  linarith

theorem eps_le_lng_step {cosd : ℚ → ℚ} {step_m lat : ℚ} (h1 : 1 ≤ step_m)
    (hcos : cosd lat ≤ 1) (hpos : 0 < meters_to_lng_degrees cosd step_m lat) :
    (1 : ℚ) / 1000000000 ≤ meters_to_lng_degrees cosd step_m lat := by
  unfold meters_to_lng_degrees at hpos ⊢
  by_cases habs : |111320 * cosd lat| < 1 / 1000000000
  · rw [if_pos habs] at hpos
    exact absurd hpos (lt_irrefl 0)
  · rw [if_neg habs] at hpos ⊢
    have hdpos : 0 < 111320 * cosd lat := by
      by_contra hdn
      push_neg at hdn
      rcases lt_or_eq_of_le hdn with hdlt | hdeq
      · have : step_m / (111320 * cosd lat) < 0 :=
          div_neg_of_pos_of_neg (by linarith) hdlt
        linarith
      · rw [hdeq, div_zero] at hpos
        exact absurd hpos (lt_irrefl 0)
    have hdle : 111320 * cosd lat ≤ 111320 := by nlinarith
    rw [div_le_div_iff (by norm_num) hdpos]
    nlinarith

/-- C9: for a valid region, every generated cell center lies inside the
bounding box expanded by at most one grid step on each axis (the latitude
step, and the longitude step recomputed at the cell latitude); the
generator is a pure function of the region and run id, hence deterministic;
and an empty result implies a non-positive longitude step at the starting
(south-west) latitude, the only break path of the source loop. -/
theorem spec_c9 (cosd : ℚ → ℚ) (region : RegionConfig) (rid : Nat)
    (hlat : region.bbox.sw_lat < region.bbox.ne_lat)
    (hlng : region.bbox.sw_lng < region.bbox.ne_lng)
    (hr0 : 0 < region.initial_radius_m)
    (hm0 : 0 < region.min_radius_m)
    (hov1 : 0 < region.overlap_step_ratio)
    (hov2 : region.overlap_step_ratio ≤ 3 / 2)
    (hcos : ∀ x, cosd x ≤ 1) :
    (∀ c ∈ generate_initial_cells cosd region rid,
      region.bbox.sw_lat ≤ c.center_lat ∧
      c.center_lat ≤ region.bbox.ne_lat +
        meters_to_lat_degrees (max 1 (region.initial_radius_m * region.overlap_step_ratio)) ∧
      region.bbox.sw_lng ≤ c.center_lng ∧
      c.center_lng ≤ region.bbox.ne_lng +
        meters_to_lng_degrees cosd
          (max 1 (region.initial_radius_m * region.overlap_step_ratio)) c.center_lat) ∧
    generate_initial_cells cosd region rid = generate_initial_cells cosd region rid ∧
    (generate_initial_cells cosd region rid = [] →
      meters_to_lng_degrees cosd
        (max 1 (region.initial_radius_m * region.overlap_step_ratio))
        region.bbox.sw_lat ≤ 0) := by
  have hstep1 : (1 : ℚ) ≤ max 1 (region.initial_radius_m * region.overlap_step_ratio) :=
    le_max_left _ _
  have hlat_step : 0 < meters_to_lat_degrees
      (max 1 (region.initial_radius_m * region.overlap_step_ratio)) := by
    unfold meters_to_lat_degrees
    positivity
  refine ⟨?_, rfl, ?_⟩
  · intro c hc
    simp only [generate_initial_cells] at hc
    rcases gen_rows_fuel_mem cosd rid region _ _ hlat_step _ region.bbox.sw_lat 0
      region.bbox.sw_lat le_rfl c hc with ⟨h1, h2, h3, h4, h5⟩
    refine ⟨h1, ?_, h3, ?_⟩
    · have := eps_le_lat_step hstep1
      linarith
    · have := eps_le_lng_step hstep1 (hcos c.center_lat) h5
      linarith
  · intro hempty
    by_contra hls
    push_neg at hls
    simp only [generate_initial_cells, gen_rows_fuel] at hempty
    rw [if_pos (by linarith : region.bbox.sw_lat ≤ region.bbox.ne_lat + 1 / 1000000000)]
      at hempty
    rw [if_neg (not_le.mpr hls)] at hempty
    rcases List.append_eq_nil.mp hempty with ⟨hcols, _⟩
    unfold col_fuel at hcols
    simp only [gen_cols_fuel] at hcols
    rw [if_pos (by linarith : region.bbox.sw_lng ≤ region.bbox.ne_lng + 1 / 1000000000)]
      at hcols
    cases hcols

/-- Witness for C9 at the concrete example region. -/
theorem spec_c9_witness :
    (wRegion.bbox.sw_lat < wRegion.bbox.ne_lat) ∧
    (∀ c ∈ generate_initial_cells const_cosd wRegion 0,
      wRegion.bbox.sw_lat ≤ c.center_lat ∧
      c.center_lat ≤ wRegion.bbox.ne_lat +
        meters_to_lat_degrees (max 1 (wRegion.initial_radius_m * wRegion.overlap_step_ratio))) := by
  have h := spec_c9 const_cosd wRegion 0 (by norm_num [wRegion]) (by norm_num [wRegion])
    (by norm_num [wRegion]) (by norm_num [wRegion]) (by norm_num [wRegion])
    (by norm_num [wRegion]) (fun x => le_rfl)
  exact ⟨by norm_num [wRegion], fun c hc => ⟨(h.1 c hc).1, (h.1 c hc).2.1⟩⟩

theorem run_loop_iteration_calls (env : Env) (rid : Nat) (s : LoopState) (db1 : DB)
    (row : CellRow) :
    (run_loop_iteration env rid s db1 row).2.calls_used = s.calls_used + 1 := by
  cases h : env.oracle (s.calls_used + 1) with
  | success places code => simp [run_loop_iteration, h]
  | failure err http => simp [run_loop_iteration, h]

theorem run_loop_iteration_events (env : Env) (rid : Nat) (s : LoopState) (db1 : DB)
    (row : CellRow) :
    (run_loop_iteration env rid s db1 row).1 =
      [Event.persistCalls (s.calls_used + 1), Event.apiCall (s.calls_used + 1)] := by
  cases h : env.oracle (s.calls_used + 1) with
  | success places code => simp [run_loop_iteration, h]
  | failure err http => simp [run_loop_iteration, h]

theorem foldl_oldest_pending_isSome (rid : Nat) :
    ∀ (l : List CellRow) (b : CellRow),
      (l.foldl (oldest_pending_step rid) (some b)).isSome = true := by
  intro l
  induction l with
  | nil => intro b; rfl
  | cons x xs ih =>
    intro b
    simp only [List.foldl_cons]
    unfold oldest_pending_step
    by_cases hx : pending_for rid x = true
    · rw [hx]
      simp only [if_true]
      by_cases hlt : x.id < b.id
      · rw [if_pos hlt]
        exact ih x
      · rw [if_neg hlt]
        exact ih b
    · simp only [Bool.not_eq_true] at hx
      rw [hx]
      simp only [Bool.false_eq_true, if_false]
      exact ih b

theorem foldl_oldest_pending_none (rid : Nat) :
    ∀ (l : List CellRow) (acc : Option CellRow),
      l.foldl (oldest_pending_step rid) acc = none →
      ∀ r ∈ l, pending_for rid r = false := by
  intro l
  induction l with
  | nil => intro acc _ r hr; cases hr
  | cons x xs ih =>
    intro acc h r hr
    simp only [List.foldl_cons] at h
    have hxp : pending_for rid x = false := by
      by_contra hxp
      simp only [Bool.not_eq_false] at hxp
      have hsome : ∃ b, oldest_pending_step rid acc x = some b := by
        unfold oldest_pending_step
        rw [hxp]
        simp only [if_true]
        cases acc with
        | none => exact ⟨x, rfl⟩
        | some b =>
          by_cases hlt : x.id < b.id
          · exact ⟨x, by simp [hlt]⟩
          · exact ⟨b, by simp [hlt]⟩
      rcases hsome with ⟨b, hb⟩
      rw [hb] at h
      have := foldl_oldest_pending_isSome rid xs b
      rw [h] at this
      cases this
    rcases List.mem_cons.mp hr with hrx | hrs
    · rw [hrx]; exact hxp
    · exact ih _ h r hrs

theorem oldest_pending_none_spec {db : DB} {rid : Nat}
    (h : oldest_pending db rid = none) :
    ∀ r ∈ db.cells, pending_for rid r = false :=
  foldl_oldest_pending_none rid db.cells none h

theorem claim_next_fst_none {db db1 : DB} {rid : Nat}
    (h : claim_next_pending_cell db rid = (none, db1)) :
    oldest_pending db rid = none ∧ db1 = db := by
  cases ho : oldest_pending db rid with
  | none =>
    unfold claim_next_pending_cell at h
    rw [ho] at h
    exact ⟨rfl, (Prod.mk.injEq _ _ _ _ |>.mp h).2.symm⟩
  | some pre =>
    exfalso
    unfold claim_next_pending_cell at h
    rw [ho] at h
    have hfind := (Prod.mk.injEq _ _ _ _ |>.mp h).1
    rcases oldest_pending_spec ho with ⟨hpre, _, _⟩
    have hmem : (fun r : CellRow =>
        if r.id == pre.id then
          { r with status := stProcessing
                   started_at := some (utc_now_iso db).1
                   error_message := none }
        else r) pre ∈
        ((utc_now_iso db).2.cells.map (fun r =>
          if r.id == pre.id then
            { r with status := stProcessing
                     started_at := some (utc_now_iso db).1
                     error_message := none }
          else r)) :=
      List.mem_map_of_mem _ hpre
    have hnone := List.find?_eq_none.mp hfind _ hmem
    simp at hnone

theorem claim_next_some_spec {db db2 : DB} {rid : Nat} {row : CellRow}
    (h : claim_next_pending_cell db rid = (some row, db2)) :
    ∃ pre ∈ db.cells, pre.run_id = rid ∧ pre.status = "pending" ∧
      db2.cells = db.cells.map (fun r =>
        if r.id == pre.id then
          { r with status := stProcessing
                   started_at := some (toString db.clock)
                   error_message := none }
        else r) ∧
      row.id = pre.id ∧ row.status = "processing" ∧
      db2.runs = db.runs ∧ db2.queries = db.queries ∧
      db2.restaurants = db.restaurants ∧ db2.next_cell_id = db.next_cell_id ∧
      row ∈ db2.cells ∧
      (∃ orig ∈ db.cells, orig.id = pre.id ∧
        row = { orig with status := stProcessing
                          started_at := some (toString db.clock)
                          error_message := none }) := by
  cases ho : oldest_pending db rid with
  | none =>
    exfalso
    unfold claim_next_pending_cell at h
    rw [ho] at h
    have := (Prod.mk.injEq _ _ _ _ |>.mp h).1
    cases this
  | some pre =>
    unfold claim_next_pending_cell at h
    rw [ho] at h
    have hfind := (Prod.mk.injEq _ _ _ _ |>.mp h).1
    have hdb2 := (Prod.mk.injEq _ _ _ _ |>.mp h).2
    rcases oldest_pending_spec ho with ⟨hpre, hprerun, hprest⟩
    have hrowmem := List.mem_of_find?_eq_some hfind
    have hrowpred := List.find?_some hfind
    simp only [beq_iff_eq] at hrowpred
    rcases List.mem_map.mp hrowmem with ⟨orig, horig, hforig⟩
    have hforig2 := hforig
    by_cases hoid : orig.id = pre.id
    · rw [if_pos (by simpa using hoid)] at hforig2
      refine ⟨pre, hpre, hprerun, hprest, ?_, hrowpred, ?_, ?_, ?_, ?_, ?_, ?_, ?_⟩
      · rw [← hdb2]; rfl
      · rw [← hforig2]; rfl
      · rw [← hdb2]; rfl
      · rw [← hdb2]; rfl
      · rw [← hdb2]; rfl
      · rw [← hdb2]; rfl
      · rw [← hdb2]; exact hrowmem
      · exact ⟨orig, horig, hoid, hforig2.symm⟩
    · exfalso
      rw [if_neg (by simpa using hoid)] at hforig2
      rw [← hforig2] at hrowpred
      exact hoid hrowpred

theorem mark_run_finished_cells (db : DB) (rid : Nat) (status : String)
    (err : Option String) :
    (mark_run_finished db rid status err).cells = db.cells := rfl

theorem count_api_call_events : ∀ (len start : Nat),
    count_api (call_events start len) = len := by
  intro len
  induction len with
  | zero => intro start; rfl
  | succ m ih =>
    intro start
    have h := ih (start + 1)
    simp [call_events, count_api, List.countP_cons] at h ⊢
    omega

theorem mem_call_events_persist : ∀ (len start n : Nat),
    Event.persistCalls n ∈ call_events start len ↔ start ≤ n ∧ n < start + len := by
  intro len
  induction len with
  | zero => intro start n; simp [call_events]
  | succ m ih =>
    intro start n
    simp only [call_events, List.mem_cons]
    rw [ih (start + 1)]
    constructor
    · rintro (h | h | h)
      · injection h with h; omega
      · cases h
      · omega
    · intro h
      by_cases hn : n = start
      · exact Or.inl (by rw [hn])
      · exact Or.inr (Or.inr (by omega))

theorem mem_call_events_api : ∀ (len start n : Nat),
    Event.apiCall n ∈ call_events start len ↔ start ≤ n ∧ n < start + len := by
  intro len
  induction len with
  | zero => intro start n; simp [call_events]
  | succ m ih =>
    intro start n
    simp only [call_events, List.mem_cons]
    rw [ih (start + 1)]
    constructor
    · rintro (h | h | h)
      · cases h
      · injection h with h; omega
      · omega
    · intro h
      by_cases hn : n = start
      · exact Or.inr (Or.inl (by rw [hn]))
      · exact Or.inr (Or.inr (by omega))

theorem call_events_api_preceded : ∀ (len start i n : Nat),
    (call_events start len)[i]? = some (Event.apiCall n) →
    1 ≤ i ∧ (call_events start len)[i - 1]? = some (Event.persistCalls n) := by
  intro len
  induction len with
  | zero => intro start i n h; simp [call_events] at h
  | succ m ih =>
    intro start i n h
    match i with
    | 0 =>
      simp [call_events] at h
    | 1 =>
      simp only [call_events] at h ⊢
      simp at h
      refine ⟨le_rfl, ?_⟩
      simp [h]
    | j + 2 =>
      have h2 : (call_events (start + 1) m)[j]? = some (Event.apiCall n) := by
        simpa [call_events] using h
      rcases ih (start + 1) j n h2 with ⟨hj, hget⟩
      refine ⟨by omega, ?_⟩
      match j, hj with
      | k + 1, _ =>
        simpa [call_events] using hget

theorem run_loop_fuel_main (env : Env) (rid effMax : Nat) :
    ∀ (fuel : Nat) (s : LoopState), effMax - s.calls_used < fuel →
      ∃ evs status s2,
        run_loop_fuel env rid effMax fuel s = some (evs, status, s2) ∧
        (status = "stopped" ∨ status = "completed") ∧
        s.calls_used ≤ s2.calls_used ∧
        (s.calls_used ≤ effMax → s2.calls_used ≤ effMax) ∧
        evs = call_events (s.calls_used + 1) (s2.calls_used - s.calls_used) ∧
        (status = "completed" → ∀ r ∈ s2.db.cells, pending_for rid r = false) ∧
        (status = "stopped" → effMax ≤ s2.calls_used) := by
  intro fuel
  induction fuel with
  | zero => intro s h; exact absurd h (Nat.not_lt_zero _)
  | succ n ih =>
    intro s hfuel
    by_cases hb : effMax ≤ s.calls_used
    · refine ⟨[], stStopped, { s with db := mark_run_finished s.db rid stStopped none },
        ?_, Or.inl rfl, le_rfl, fun h => h, ?_, ?_, fun _ => hb⟩
      · simp [run_loop_fuel, hb]
      · rw [Nat.sub_self]; rfl
      · intro hc; exact absurd hc (by decide)
    · push_neg at hb
      rcases hclaim : claim_next_pending_cell s.db rid with ⟨rowopt, db1⟩
      cases rowopt with
      | none =>
        refine ⟨[], stCompleted, { s with db := mark_run_finished db1 rid stCompleted none },
          ?_, Or.inr rfl, le_rfl, fun h => h, ?_, ?_, ?_⟩
        · simp only [run_loop_fuel]
          rw [if_neg (not_le.mpr hb), hclaim]
        · rw [Nat.sub_self]; rfl
        · intro _ r hr
          rcases claim_next_fst_none hclaim with ⟨ho, hdb⟩
          subst hdb
          exact oldest_pending_none_spec ho r hr
        · intro hc; exact absurd hc (by decide)
      | some row =>
        have hcalls := run_loop_iteration_calls env rid s db1 row
        have hev := run_loop_iteration_events env rid s db1 row
        rcases ih (run_loop_iteration env rid s db1 row).2 (by omega) with
          ⟨evs2, status, s2, heq, hst, hmono, hbound, hevs2, hcomp, hstop⟩
        have hm2 : s.calls_used + 1 ≤ s2.calls_used := by
          rw [hcalls] at hmono; exact hmono
        refine ⟨(run_loop_iteration env rid s db1 row).1 ++ evs2, status, s2, ?_, hst,
          by omega, ?_, ?_, hcomp, hstop⟩
        · simp only [run_loop_fuel]
          rw [if_neg (not_le.mpr hb), hclaim]
          simp only []
          rw [heq]
        · intro _
          apply hbound
          rw [hcalls]
          omega
        · rw [hev, hevs2, hcalls]
          have h1 : s2.calls_used - s.calls_used =
              (s2.calls_used - (s.calls_used + 1)) + 1 := by omega
          rw [h1]
          simp [call_events]

theorem run_loop_spec (env : Env) (rid effMax : Nat) (s : LoopState) :
    ((run_loop env rid effMax s).2.1 = "stopped" ∨
      (run_loop env rid effMax s).2.1 = "completed") ∧
    s.calls_used ≤ (run_loop env rid effMax s).2.2.calls_used ∧
    (s.calls_used ≤ effMax → (run_loop env rid effMax s).2.2.calls_used ≤ effMax) ∧
    (run_loop env rid effMax s).1 = call_events (s.calls_used + 1)
      ((run_loop env rid effMax s).2.2.calls_used - s.calls_used) ∧
    ((run_loop env rid effMax s).2.1 = "completed" →
      ∀ r ∈ (run_loop env rid effMax s).2.2.db.cells, pending_for rid r = false) ∧
    ((run_loop env rid effMax s).2.1 = "stopped" →
      effMax ≤ (run_loop env rid effMax s).2.2.calls_used) := by
  rcases run_loop_fuel_main env rid effMax (effMax - s.calls_used + 1) s (by omega) with
    ⟨evs, status, s2, heq, hst, hmono, hbound, hevs, hcomp, hstop⟩
  unfold run_loop
  rw [heq]
  simp only [Option.getD_some]
  exact ⟨hst, hmono, hbound, hevs, hcomp, hstop⟩

/-- C1 counterexample: with effective budget 1 and a single pending cell
whose call succeeds without saturation, the loop ends with no pending cell
left and still marks the run stopped rather than completed, because the
budget check precedes the pending-cell check.  This refutes the claim that
the run ends completed whenever no pending cells remain. -/
theorem spec_c1_cex :
    (run_loop wEnvOk 1 1 wState1).2.1 = "stopped" ∧
    (run_loop wEnvOk 1 1 wState1).2.2.db.cells.filter (pending_for 1) = [] ∧
    "stopped" ≠ "completed" := by
  decide

/-- C1 (amended): with effective budget N the loop issues at most
N - calls_used external calls; it always ends stopped or completed; if
pending cells remain it ended stopped; and a completed end implies no
pending cells remain.  (The converse direction of the original claim fails:
with the budget exactly exhausted the run is marked stopped even when no
pending cells remain; see the counterexample.) -/
theorem spec_c1 (env : Env) (rid effMax : Nat) (s : LoopState)
    (hcalls : s.calls_used ≤ effMax) :
    count_api (run_loop env rid effMax s).1 ≤ effMax - s.calls_used ∧
    ((run_loop env rid effMax s).2.1 = "stopped" ∨
      (run_loop env rid effMax s).2.1 = "completed") ∧
    ((run_loop env rid effMax s).2.2.db.cells.filter (pending_for rid) ≠ [] →
      (run_loop env rid effMax s).2.1 = "stopped") ∧
    ((run_loop env rid effMax s).2.1 = "completed" →
      (run_loop env rid effMax s).2.2.db.cells.filter (pending_for rid) = []) := by
  rcases run_loop_spec env rid effMax s with ⟨hst, hmono, hbound, hevs, hcomp, hstop⟩
  have hfilter : (run_loop env rid effMax s).2.1 = "completed" →
      (run_loop env rid effMax s).2.2.db.cells.filter (pending_for rid) = [] := by
    intro h
    rw [List.filter_eq_nil]
    intro r hr
    simp [hcomp h r hr]
  refine ⟨?_, hst, ?_, hfilter⟩
  · rw [hevs, count_api_call_events]
    have := hbound hcalls
    omega
  · intro hne
    rcases hst with h | h
    · exact h
    · exact absurd (hfilter h) hne

/-- Witness for C1 at the concrete one-cell budget-1 run. -/
theorem spec_c1_witness :
    wState1.calls_used ≤ 1 ∧
    ((run_loop wEnvOk 1 1 wState1).2.1 = "stopped" ∨
      (run_loop wEnvOk 1 1 wState1).2.1 = "completed") :=
  ⟨by decide, (spec_c1 wEnvOk 1 1 wState1 (by decide)).2.1⟩

/-- C2 counterexample: resuming a run that already used 5 calls with a
smaller requested cap of 3 overwrites max_calls with 3 while keeping
calls_used at 5, so the persisted counter exceeds max_calls (no further
calls are issued; the loop stops immediately).  This refutes the claim that
the persisted calls_used counter never exceeds max_calls. -/
theorem spec_c2_cex :
    (resume_and_loop wEnvOk wDBr 3).isSome = true ∧
    (∃ q ∈ ((resume_and_loop wEnvOk wDBr 3).getD ([], "", wState1)).2.2.db.runs,
      q.max_calls < q.calls_used) := by
  decide

/-- C2 (amended): within the loop the budget is enforced before every call:
the event trace is exactly the block sequence persist(c+1), api(c+1), ...,
persist(final), api(final); every persisted counter value is strictly above
the starting value, at most the final value and at most the effective
budget (so the counter never decreases and the loop itself never pushes it
past the budget); every external call is immediately preceded by the
persist of the same call number (charged before the call); and a resumed
run starts from the stored calls_used value, which never decreases.  The
original claim fails only in that resuming with a smaller cap than the
stored counter leaves calls_used above max_calls; see the counterexample. -/
theorem spec_c2 (env : Env) (rid effMax : Nat) (s : LoopState)
    (hcalls : s.calls_used ≤ effMax) :
    ((run_loop env rid effMax s).1 = call_events (s.calls_used + 1)
      ((run_loop env rid effMax s).2.2.calls_used - s.calls_used)) ∧
    (∀ n, Event.persistCalls n ∈ (run_loop env rid effMax s).1 →
      s.calls_used < n ∧ n ≤ (run_loop env rid effMax s).2.2.calls_used ∧ n ≤ effMax) ∧
    (∀ i n, ((run_loop env rid effMax s).1)[i]? = some (Event.apiCall n) →
      1 ≤ i ∧ ((run_loop env rid effMax s).1)[i - 1]? = some (Event.persistCalls n)) ∧
    (∀ (db : DB) (r : RunRow) (out : List Event × String × LoopState),
      get_latest_resumable_run db = some r →
      resume_and_loop env db effMax = some out →
      r.calls_used ≤ out.2.2.calls_used) := by
  rcases run_loop_spec env rid effMax s with ⟨hst, hmono, hbound, hevs, hcomp, hstop⟩
  refine ⟨hevs, ?_, ?_, ?_⟩
  · intro n hn
    rw [hevs] at hn
    rcases (mem_call_events_persist _ _ _).mp hn with ⟨h1, h2⟩
    have hb := hbound hcalls
    refine ⟨by omega, by omega, by omega⟩
  · intro i n hn
    rw [hevs] at hn ⊢
    exact call_events_api_preceded _ _ i n hn
  · intro db r out hres hrl
    unfold resume_and_loop resume_prepare at hrl
    rw [hres] at hrl
    simp only [] at hrl
    have hout := Option.some.inj hrl
    rw [← hout]
    exact (run_loop_spec env r.id effMax (initial_loop_state _ r.calls_used)).2.1

/-- Witness for C2 at the concrete one-cell budget-1 run. -/
theorem spec_c2_witness :
    wState1.calls_used ≤ 1 ∧
    (run_loop wEnvOk 1 1 wState1).1 = call_events (wState1.calls_used + 1)
      ((run_loop wEnvOk 1 1 wState1).2.2.calls_used - wState1.calls_used) :=
  ⟨by decide, (spec_c2 wEnvOk 1 1 wState1 (by decide)).1⟩

theorem string_append_right_inj (a : String) {b c : String} (h : a ++ b = a ++ c) :
    b = c := by
  have hd : (a ++ b).data = (a ++ c).data := by rw [h]
  rw [String.data_append, String.data_append] at hd
  exact String.ext (List.append_cancel_left hd)

theorem split_cell_child_keys (cosd : ℚ → ℚ) (cell : Cell) :
    ∀ ch ∈ split_cell cosd cell,
      ch.parent_cell_key = some cell.cell_key ∧
      ch.run_id = cell.run_id ∧ ch.region_name = cell.region_name ∧
      ch.radius_m = cell.radius_m / 2 ∧ ch.min_radius_m = cell.min_radius_m ∧
      ch.depth = cell.depth + 1 ∧
      ∃ j, j < 4 ∧ ch.cell_key = cell.cell_key ++ "." ++ toString j := by
  intro ch hch
  unfold split_cell at hch
  by_cases hr : cell.radius_m / 2 < cell.min_radius_m
  · rw [if_pos hr] at hch
    cases hch
  · rw [if_neg hr] at hch
    simp only [List.mem_cons, List.not_mem_nil, or_false] at hch
    rcases hch with h | h | h | h <;> subst h
    · exact ⟨rfl, rfl, rfl, rfl, rfl, rfl, 0, by norm_num, rfl⟩
    · exact ⟨rfl, rfl, rfl, rfl, rfl, rfl, 1, by norm_num, rfl⟩
    · exact ⟨rfl, rfl, rfl, rfl, rfl, rfl, 2, by norm_num, rfl⟩
    · exact ⟨rfl, rfl, rfl, rfl, rfl, rfl, 3, by norm_num, rfl⟩

theorem split_key_ne (k : String) {i j : Nat} (hij : toString i ≠ toString j) :
    k ++ "." ++ toString i ≠ k ++ "." ++ toString j :=
  fun h => hij (string_append_right_inj (k ++ ".") h)

theorem split_cell_keys_pairwise (cosd : ℚ → ℚ) (cell : Cell) :
    (split_cell cosd cell).Pairwise
      (fun a b => ¬(a.run_id = b.run_id ∧ a.cell_key = b.cell_key)) := by
  unfold split_cell
  by_cases hr : cell.radius_m / 2 < cell.min_radius_m
  · rw [if_pos hr]
    exact List.Pairwise.nil
  · rw [if_neg hr]
    refine List.Pairwise.cons ?_ (List.Pairwise.cons ?_ (List.Pairwise.cons ?_
      (List.Pairwise.cons ?_ List.Pairwise.nil)))
    · intro b hb
      simp only [List.mem_cons, List.not_mem_nil, or_false] at hb
      rcases hb with rfl | rfl | rfl <;>
        exact fun hcon => split_key_ne cell.cell_key (by decide) hcon.2
    · intro b hb
      simp only [List.mem_cons, List.not_mem_nil, or_false] at hb
      rcases hb with rfl | rfl <;>
        exact fun hcon => split_key_ne cell.cell_key (by decide) hcon.2
    · intro b hb
      simp only [List.mem_cons, List.not_mem_nil, or_false] at hb
      rcases hb with rfl <;>
        exact fun hcon => split_key_ne cell.cell_key (by decide) hcon.2
    · intro b hb
      cases hb

theorem split_cell_isEmpty_false (cosd : ℚ → ℚ) (cell : Cell)
    (h : cell.min_radius_m ≤ cell.radius_m / 2) :
    (split_cell cosd cell).isEmpty = false := by
  unfold split_cell
  rw [if_neg (not_lt.mpr h)]
  rfl

theorem split_cell_eq_nil (cosd : ℚ → ℚ) (cell : Cell)
    (h : cell.radius_m / 2 < cell.min_radius_m) :
    split_cell cosd cell = [] := by
  unfold split_cell
  rw [if_pos h]

theorem split_cell_length (cosd : ℚ → ℚ) (cell : Cell)
    (h : cell.min_radius_m ≤ cell.radius_m / 2) :
    (split_cell cosd cell).length = 4 := by
  unfold split_cell
  rw [if_neg (not_lt.mpr h)]
  rfl

theorem insert_places_step_db_frame (acc : Nat × Nat × List String × DB) (raw : RawPlace) :
    (insert_places_step acc raw).2.2.2.cells = acc.2.2.2.cells ∧
    (insert_places_step acc raw).2.2.2.runs = acc.2.2.2.runs ∧
    (insert_places_step acc raw).2.2.2.queries = acc.2.2.2.queries ∧
    (insert_places_step acc raw).2.2.2.next_cell_id = acc.2.2.2.next_cell_id ∧
    (insert_places_step acc raw).2.2.2.next_query_id = acc.2.2.2.next_query_id ∧
    (insert_places_step acc raw).2.2.2.clock = acc.2.2.2.clock := by
  rcases hn : normalize_place raw with _ | np
  · rw [insert_places_step_of_none hn]
    exact ⟨rfl, rfl, rfl, rfl, rfl, rfl⟩
  · by_cases hs : np.place_id ∈ acc.2.2.1
    · rw [insert_places_step_of_seen hn hs]
      exact ⟨rfl, rfl, rfl, rfl, rfl, rfl⟩
    · by_cases hex : acc.2.2.2.restaurants.any
        (fun r => r.google_place_id == np.place_id) = true
      · rw [insert_places_step_of_dup hn hs hex]
        exact ⟨rfl, rfl, rfl, rfl, rfl, rfl⟩
      · rw [insert_places_step_of_new hn hs (by simpa using hex)]
        exact ⟨rfl, rfl, rfl, rfl, rfl, rfl⟩

theorem insert_places_db_frame :
    ∀ (places : List RawPlace) (acc : Nat × Nat × List String × DB),
      (places.foldl insert_places_step acc).2.2.2.cells = acc.2.2.2.cells ∧
      (places.foldl insert_places_step acc).2.2.2.runs = acc.2.2.2.runs ∧
      (places.foldl insert_places_step acc).2.2.2.queries = acc.2.2.2.queries ∧
      (places.foldl insert_places_step acc).2.2.2.next_cell_id = acc.2.2.2.next_cell_id ∧
      (places.foldl insert_places_step acc).2.2.2.next_query_id = acc.2.2.2.next_query_id ∧
      (places.foldl insert_places_step acc).2.2.2.clock = acc.2.2.2.clock := by
  intro places
  induction places with
  | nil => intro acc; exact ⟨rfl, rfl, rfl, rfl, rfl, rfl⟩
  | cons raw rest ih =>
    intro acc
    simp only [List.foldl_cons]
    rcases ih (insert_places_step acc raw) with ⟨h1, h2, h3, h4, h5, h6⟩
    rcases insert_places_step_db_frame acc raw with ⟨g1, g2, g3, g4, g5, g6⟩
    exact ⟨h1.trans g1, h2.trans g2, h3.trans g3, h4.trans g4, h5.trans g5, h6.trans g6⟩

theorem insert_cells_foldl_fresh (now status : String) :
    ∀ (cs : List Cell) (acc : Nat × DB),
      (∀ c ∈ cs, cell_exists acc.2.cells c.run_id c.cell_key = false) →
      cs.Pairwise (fun a b => ¬(a.run_id = b.run_id ∧ a.cell_key = b.cell_key)) →
      ∃ rows, (cs.foldl (insert_cells_step now status) acc).2.cells = acc.2.cells ++ rows ∧
        rows.length = cs.length ∧
        ∀ r ∈ rows, ∃ c ∈ cs, ∃ id, acc.2.next_cell_id ≤ id ∧
          r = cell_row_of id c status now := by
  intro cs
  induction cs with
  | nil =>
    intro acc _ _
    exact ⟨[], by simp, rfl, by intro r hr; cases hr⟩
  | cons x xs ih =>
    intro acc hfresh hpair
    simp only [List.foldl_cons]
    have hx := hfresh x (List.mem_cons_self _ _)
    rw [insert_cells_step_of_not_exists hx]
    have hhead := (List.pairwise_cons.mp hpair).1
    have htail := (List.pairwise_cons.mp hpair).2
    have hfresh2 : ∀ c ∈ xs,
        cell_exists (acc.2.cells ++ [cell_row_of acc.2.next_cell_id x status now])
          c.run_id c.cell_key = false := by
      intro c hc
      unfold cell_exists
      rw [List.any_append]
      have hold : cell_exists acc.2.cells c.run_id c.cell_key = false :=
        hfresh c (List.mem_cons_of_mem _ hc)
      unfold cell_exists at hold
      rw [hold]
      simp only [Bool.false_or, List.any_cons, List.any_nil, Bool.or_false]
      have hne := hhead c hc
      simp only [cell_row_of]
      rw [Bool.and_eq_false_iff]
      by_cases hrun : x.run_id = c.run_id
      · right
        rw [beq_eq_false_iff_ne]
        intro hk
        exact hne ⟨hrun, hk⟩
      · left
        rw [beq_eq_false_iff_ne]
        exact hrun
    rcases ih (acc.1 + 1,
      { acc.2 with
          cells := acc.2.cells ++ [cell_row_of acc.2.next_cell_id x status now]
          next_cell_id := acc.2.next_cell_id + 1 }) hfresh2 htail with ⟨rows, hrows, hlen, hprop⟩
    refine ⟨cell_row_of acc.2.next_cell_id x status now :: rows, ?_, by simp [hlen], ?_⟩
    · rw [hrows]
      simp
    · intro r hr
      rcases List.mem_cons.mp hr with hr0 | hr2
      · exact ⟨x, List.mem_cons_self _ _, acc.2.next_cell_id, le_rfl, hr0⟩
      · rcases hprop r hr2 with ⟨c, hc, id, hid, hreq⟩
        have hid2 : acc.2.next_cell_id + 1 ≤ id := hid
        exact ⟨c, List.mem_cons_of_mem _ hc, id, by omega, hreq⟩

theorem insert_cells_fresh (db : DB) (cs : List Cell) (status : String)
    (hfresh : ∀ c ∈ cs, cell_exists db.cells c.run_id c.cell_key = false)
    (hpair : cs.Pairwise (fun a b => ¬(a.run_id = b.run_id ∧ a.cell_key = b.cell_key))) :
    ∃ rows, (insert_cells db cs status).2.cells = db.cells ++ rows ∧
      rows.length = cs.length ∧
      ∀ r ∈ rows, ∃ c ∈ cs, ∃ id, db.next_cell_id ≤ id ∧
        r = cell_row_of id c status (toString db.clock) := by
  by_cases hcs : cs.isEmpty
  · refine ⟨[], by simp [insert_cells, hcs, utc_now_iso], ?_, by intro r hr; cases hr⟩
    cases cs with
    | nil => rfl
    | cons a l => cases hcs
  · have hne : cs.isEmpty = false := by simpa using hcs
    simp only [insert_cells, hne, Bool.false_eq_true, if_false]
    exact insert_cells_foldl_fresh (toString db.clock) status cs
      (0, (utc_now_iso db).2) hfresh hpair

theorem update_cell_success_shape (db : DB) (cell_id : Nat) (status : String)
    (rc ic dc : Nat) (sat : Bool) :
    ∃ f : CellRow → CellRow,
      (update_cell_success db cell_id status rc ic dc sat).cells = db.cells.map f ∧
      (∀ r, r.id ≠ cell_id → f r = r) ∧
      (∀ r, r.id = cell_id → (f r).status = status ∧
        (f r).result_count = some rc ∧
        (f r).is_saturated = some (if sat then 1 else 0) ∧
        (f r).id = r.id ∧ (f r).parent_cell_key = r.parent_cell_key ∧
        (f r).radius_m = r.radius_m ∧ (f r).min_radius_m = r.min_radius_m ∧
        (f r).run_id = r.run_id ∧ (f r).depth = r.depth ∧
        (f r).cell_key = r.cell_key) ∧
      (∀ r, (f r).id = r.id ∧ (f r).parent_cell_key = r.parent_cell_key ∧
        (f r).radius_m = r.radius_m ∧ (f r).min_radius_m = r.min_radius_m ∧
        (f r).run_id = r.run_id) := by
  refine ⟨_, rfl, ?_, ?_, ?_⟩
  · intro r hr
    simp [hr]
  · intro r hr
    simp [hr]
  · intro r
    by_cases hr : r.id = cell_id
    · simp [hr]
    · simp [hr]

theorem update_cell_error_shape (db : DB) (cell_id : Nat) (err : String) :
    ∃ f : CellRow → CellRow,
      (update_cell_error db cell_id err).cells = db.cells.map f ∧
      (∀ r, r.id ≠ cell_id → f r = r) ∧
      (∀ r, r.id = cell_id → (f r).status = "error" ∧
        (f r).error_message = some (err.take 1000) ∧ (f r).id = r.id ∧
        (f r).parent_cell_key = r.parent_cell_key ∧ (f r).radius_m = r.radius_m ∧
        (f r).min_radius_m = r.min_radius_m ∧ (f r).run_id = r.run_id) ∧
      (∀ r, (f r).id = r.id ∧ (f r).parent_cell_key = r.parent_cell_key ∧
        (f r).radius_m = r.radius_m ∧ (f r).min_radius_m = r.min_radius_m ∧
        (f r).run_id = r.run_id) := by
  refine ⟨_, rfl, ?_, ?_, ?_⟩
  · intro r hr
    simp [hr]
  · intro r hr
    simp [hr, stError]
  · intro r
    by_cases hr : r.id = cell_id
    · simp [hr]
    · simp [hr]

theorem run_loop_iteration_failure_shape (env : Env) (rid : Nat) (s : LoopState)
    (db1 : DB) (row : CellRow) (err : String) (http : Option Int)
    (horacle : env.oracle (s.calls_used + 1) = FetchResult.failure err http) :
    (run_loop_iteration env rid s db1 row).2.db.cells =
      (update_cell_error
        (update_run_calls (utc_now_iso db1).2 rid (s.calls_used + 1)) row.id err).cells ∧
    (∃ q : QueryRow,
      (run_loop_iteration env rid s db1 row).2.db.queries = db1.queries ++ [q] ∧
      q.result_count = none ∧ q.error_message = some err ∧ q.http_status = http ∧
      q.api_call_number = s.calls_used + 1 ∧ q.cell_id = some row.id ∧
      q.is_saturated = none) ∧
    (run_loop_iteration env rid s db1 row).2.db.next_cell_id = db1.next_cell_id ∧
    (run_loop_iteration env rid s db1 row).2.db.cells.length = db1.cells.length := by
  refine ⟨?_, ?_, ?_, ?_⟩
  · simp only [run_loop_iteration, horacle]
    rfl
  · refine ⟨{ id := db1.next_query_id, run_id := rid, cell_id := some row.id, requested_at := toString db1.clock, responded_at := some (toString (db1.clock + 2)), duration_ms := some (env.duration (s.calls_used + 1)), api_call_number := s.calls_used + 1, http_status := http, result_count := none, is_saturated := none, error_message := some err }, ?_, rfl, rfl, rfl, rfl, rfl, rfl⟩
    simp only [run_loop_iteration, horacle]
    rfl
  · simp only [run_loop_iteration, horacle]
    rfl
  · simp only [run_loop_iteration, horacle]
    simp [update_cell_error, update_run_calls, utc_now_iso, write_query_row]

theorem run_loop_iteration_split_shape (env : Env) (rid : Nat) (s : LoopState)
    (db1 : DB) (row : CellRow) (places : List RawPlace) (code : Int)
    (horacle : env.oracle (s.calls_used + 1) = FetchResult.success places code)
    (hsat : SATURATION_THRESHOLD ≤ places.length)
    (hsplit : row.min_radius_m ≤ row.radius_m / 2)
    (hfresh : ∀ c ∈ split_cell env.cosd (cell_of_row rid row),
      cell_exists db1.cells c.run_id c.cell_key = false) :
    ∃ (rows : List CellRow) (f : CellRow → CellRow),
      (run_loop_iteration env rid s db1 row).2.db.cells = (db1.cells ++ rows).map f ∧
      (∀ r, r.id ≠ row.id → f r = r) ∧
      (∀ r, r.id = row.id → (f r).status = "split" ∧
        (f r).result_count = some places.length ∧ (f r).is_saturated = some 1 ∧
        (f r).id = r.id ∧ (f r).parent_cell_key = r.parent_cell_key) ∧
      (∀ r, (f r).id = r.id ∧ (f r).parent_cell_key = r.parent_cell_key ∧
        (f r).radius_m = r.radius_m ∧ (f r).min_radius_m = r.min_radius_m ∧
        (f r).run_id = r.run_id) ∧
      rows.length = 4 ∧
      (∀ r ∈ rows, db1.next_cell_id ≤ r.id ∧ r.status = "pending" ∧
        r.parent_cell_key = some row.cell_key ∧ r.radius_m = row.radius_m / 2 ∧
        r.min_radius_m = row.min_radius_m ∧ r.run_id = rid ∧
        r.depth = row.depth + 1) := by
  have hframe := insert_places_db_frame places
    (0, 0, s.seen_place_ids, update_run_calls (utc_now_iso db1).2 rid (s.calls_used + 1))
  have hcells4 : (insert_places
      (update_run_calls (utc_now_iso db1).2 rid (s.calls_used + 1)) places
      s.seen_place_ids).2.2.2.cells = db1.cells := hframe.1
  have hnext4 : (insert_places
      (update_run_calls (utc_now_iso db1).2 rid (s.calls_used + 1)) places
      s.seen_place_ids).2.2.2.next_cell_id = db1.next_cell_id := hframe.2.2.2.1
  have hfresh4 : ∀ c ∈ split_cell env.cosd (cell_of_row rid row),
      cell_exists (insert_places
        (update_run_calls (utc_now_iso db1).2 rid (s.calls_used + 1)) places
        s.seen_place_ids).2.2.2.cells c.run_id c.cell_key = false := by
    intro c hc
    rw [hcells4]
    exact hfresh c hc
  rcases insert_cells_fresh _ (split_cell env.cosd (cell_of_row rid row)) stPending
    hfresh4 (split_cell_keys_pairwise env.cosd (cell_of_row rid row)) with
    ⟨rows, hrows, hlen, hprop⟩
  have hsatT : (SATURATION_THRESHOLD ≤ places.length) = True := eq_true hsat
  have hie := split_cell_isEmpty_false env.cosd (cell_of_row rid row) hsplit
  have hstep : ∃ ic dc, (run_loop_iteration env rid s db1 row).2.db.cells =
      (update_cell_success ((insert_cells (insert_places
        (update_run_calls (utc_now_iso db1).2 rid (s.calls_used + 1)) places
        s.seen_place_ids).2.2.2 (split_cell env.cosd (cell_of_row rid row))
        stPending).2) row.id stSplit places.length ic dc true).cells := by
    refine ⟨(insert_places (update_run_calls (utc_now_iso db1).2 rid
        (s.calls_used + 1)) places s.seen_place_ids).1,
      (insert_places (update_run_calls (utc_now_iso db1).2 rid
        (s.calls_used + 1)) places s.seen_place_ids).2.1, ?_⟩
    simp only [run_loop_iteration, horacle, hsatT, if_true, decide_True, hie,
      Bool.false_eq_true, if_false]
    rfl
  rcases hstep with ⟨ic, dc, hstep⟩
  rcases update_cell_success_shape ((insert_cells (insert_places
      (update_run_calls (utc_now_iso db1).2 rid (s.calls_used + 1)) places
      s.seen_place_ids).2.2.2 (split_cell env.cosd (cell_of_row rid row))
      stPending).2) row.id stSplit places.length ic dc true with ⟨f, hf1, hf2, hf3, hf4⟩
  refine ⟨rows, f, ?_, hf2, ?_, hf4, ?_, ?_⟩
  · rw [hstep, hf1, hrows, hcells4]
  · intro r hr
    rcases hf3 r hr with ⟨h1, h2, h3, h4, h5, -⟩
    exact ⟨h1, h2, by simpa using h3, h4, h5⟩
  · rw [hlen]
    exact split_cell_length env.cosd (cell_of_row rid row) hsplit
  · intro r hr
    rcases hprop r hr with ⟨c, hc, id, hid, hreq⟩
    rcases split_cell_child_keys env.cosd (cell_of_row rid row) c hc with
      ⟨hp, hrun, _, hrad, hmin, hdep, _⟩
    subst hreq
    rw [hnext4] at hid
    exact ⟨hid, rfl, by simpa using hp, by simpa using hrad, by simpa using hmin,
      by simpa using hrun, by simpa using hdep⟩

theorem run_loop_iteration_done_shape (env : Env) (rid : Nat) (s : LoopState)
    (db1 : DB) (row : CellRow) (places : List RawPlace) (code : Int)
    (horacle : env.oracle (s.calls_used + 1) = FetchResult.success places code)
    (hdone : places.length < SATURATION_THRESHOLD ∨
      row.radius_m / 2 < row.min_radius_m) :
    ∃ f : CellRow → CellRow,
      (run_loop_iteration env rid s db1 row).2.db.cells = db1.cells.map f ∧
      (∀ r, r.id ≠ row.id → f r = r) ∧
      (∀ r, r.id = row.id → (f r).status = "done" ∧
        (f r).result_count = some places.length ∧ (f r).id = r.id ∧
        (f r).parent_cell_key = r.parent_cell_key) ∧
      (∀ r, (f r).id = r.id ∧ (f r).parent_cell_key = r.parent_cell_key ∧
        (f r).radius_m = r.radius_m ∧ (f r).min_radius_m = r.min_radius_m ∧
        (f r).run_id = r.run_id) := by
  have hframe := insert_places_db_frame places
    (0, 0, s.seen_place_ids, update_run_calls (utc_now_iso db1).2 rid (s.calls_used + 1))
  have hcells4 : (insert_places
      (update_run_calls (utc_now_iso db1).2 rid (s.calls_used + 1)) places
      s.seen_place_ids).2.2.2.cells = db1.cells := hframe.1
  have hchildren : (if SATURATION_THRESHOLD ≤ places.length then
      split_cell env.cosd (cell_of_row rid row) else []) = [] := by
    rcases hdone with h1 | h2
    · rw [if_neg (not_le.mpr h1)]
    · by_cases hs : SATURATION_THRESHOLD ≤ places.length
      · rw [if_pos hs]
        exact split_cell_eq_nil _ _ h2
      · rw [if_neg hs]
  have hstep : ∃ ic dc sat, (run_loop_iteration env rid s db1 row).2.db.cells =
      (update_cell_success (insert_places
        (update_run_calls (utc_now_iso db1).2 rid (s.calls_used + 1)) places
        s.seen_place_ids).2.2.2 row.id stDone places.length ic dc sat).cells := by
    refine ⟨(insert_places (update_run_calls (utc_now_iso db1).2 rid
        (s.calls_used + 1)) places s.seen_place_ids).1,
      (insert_places (update_run_calls (utc_now_iso db1).2 rid
        (s.calls_used + 1)) places s.seen_place_ids).2.1,
      decide (SATURATION_THRESHOLD ≤ places.length), ?_⟩
    simp only [run_loop_iteration, horacle, hchildren, List.isEmpty_nil, if_true]
    rfl
  rcases hstep with ⟨ic, dc, sat, hstep⟩
  rcases update_cell_success_shape ((insert_places
      (update_run_calls (utc_now_iso db1).2 rid (s.calls_used + 1)) places
      s.seen_place_ids).2.2.2) row.id stDone places.length ic dc sat with
    ⟨f, hf1, hf2, hf3, hf4⟩
  refine ⟨f, ?_, hf2, ?_, hf4⟩
  · rw [hstep, hf1, hcells4]
  · intro r hr
    rcases hf3 r hr with ⟨h1, h2, -, h4, h5, -⟩
    exact ⟨h1, h2, h4, h5⟩

theorem list_map_id_of_mem {α : Type} (l : List α) (f : α → α)
    (h : ∀ a ∈ l, f a = a) : l.map f = l := by
  induction l with
  | nil => rfl
  | cons x xs ih =>
    simp only [List.map_cons]
    rw [h x (List.mem_cons_self _ _), ih (fun a ha => h a (List.mem_cons_of_mem _ ha))]

/-- C3: outcome of a successfully fetched claimed cell.  If the page is
saturated (at least SATURATION_THRESHOLD results) and half the radius is
still at least the minimum radius, the cell is marked split and exactly
four pending children of it are inserted, at half radius, depth one deeper
and inheriting run, region and minimum radius; in every other successful
case the cell is marked done and no rows are added (in particular no
children).  The freshness hypotheses say the four child keys and children
of this cell do not already exist, which holds in any run that has not
processed this cell before. -/
theorem spec_c3 (env : Env) (rid : Nat) (s : LoopState) (db1 : DB) (row : CellRow)
    (places : List RawPlace) (code : Int)
    (horacle : env.oracle (s.calls_used + 1) = FetchResult.success places code)
    (hrowmem : row ∈ db1.cells)
    (hrowid : row.id < db1.next_cell_id)
    (hfresh0 : ∀ r ∈ db1.cells, r.parent_cell_key ≠ some row.cell_key)
    (hfreshk : ∀ j, j < 4 →
      cell_exists db1.cells rid (row.cell_key ++ "." ++ toString j) = false) :
    (SATURATION_THRESHOLD ≤ places.length → row.min_radius_m ≤ row.radius_m / 2 →
      (∃ r ∈ (run_loop_iteration env rid s db1 row).2.db.cells,
        r.id = row.id ∧ r.status = "split") ∧
      (∀ r ∈ (run_loop_iteration env rid s db1 row).2.db.cells, r.id = row.id →
        r.status = "split" ∧ r.result_count = some places.length ∧
        r.is_saturated = some 1) ∧
      ((run_loop_iteration env rid s db1 row).2.db.cells.filter
        (fun r => r.parent_cell_key == some row.cell_key &&
          r.status == "pending")).length = 4 ∧
      (∀ r ∈ (run_loop_iteration env rid s db1 row).2.db.cells,
        r.parent_cell_key = some row.cell_key →
        r.status = "pending" ∧ r.radius_m = row.radius_m / 2 ∧
        r.min_radius_m = row.min_radius_m ∧ r.run_id = rid ∧
        r.depth = row.depth + 1)) ∧
    (places.length < SATURATION_THRESHOLD ∨ row.radius_m / 2 < row.min_radius_m →
      (∃ r ∈ (run_loop_iteration env rid s db1 row).2.db.cells,
        r.id = row.id ∧ r.status = "done") ∧
      (∀ r ∈ (run_loop_iteration env rid s db1 row).2.db.cells, r.id = row.id →
        r.status = "done" ∧ r.result_count = some places.length) ∧
      (run_loop_iteration env rid s db1 row).2.db.cells.length = db1.cells.length ∧
      ((run_loop_iteration env rid s db1 row).2.db.cells.filter
        (fun r => r.parent_cell_key == some row.cell_key &&
          r.status == "pending")).length = 0) := by
  constructor
  · intro hsat hsplit
    have hfr : ∀ c ∈ split_cell env.cosd (cell_of_row rid row),
        cell_exists db1.cells c.run_id c.cell_key = false := by
      intro c hc
      rcases split_cell_child_keys env.cosd (cell_of_row rid row) c hc with
        ⟨-, hrun, -, -, -, -, j, hj, hkey⟩
      rw [hrun, hkey]
      exact hfreshk j hj
    rcases run_loop_iteration_split_shape env rid s db1 row places code horacle
      hsat hsplit hfr with ⟨rows, f, hcells, hf2, hf3, hf4, hlen4, hrowsp⟩
    have hrowsid : ∀ r ∈ rows, f r = r := by
      intro r hr
      exact hf2 r (by have := (hrowsp r hr).1; omega)
    have hmaprows : rows.map f = rows := list_map_id_of_mem rows f hrowsid
    refine ⟨?_, ?_, ?_, ?_⟩
    · exact ⟨f row, by
        rw [hcells]
        exact List.mem_map_of_mem f (List.mem_append_left _ hrowmem),
        (hf4 row).1, (hf3 row rfl).1⟩
    · intro r hr hid
      rw [hcells] at hr
      rcases List.mem_map.mp hr with ⟨x, hx, hfx⟩
      have hxid : x.id = row.id := by rw [← (hf4 x).1, hfx, hid]
      subst hfx
      exact ⟨(hf3 x hxid).1, (hf3 x hxid).2.1, (hf3 x hxid).2.2.1⟩
    · rw [hcells, List.map_append, hmaprows, List.filter_append, List.length_append]
      have h1 : ((db1.cells.map f).filter
          (fun r => r.parent_cell_key == some row.cell_key &&
            r.status == "pending")) = [] := by
        rw [List.filter_eq_nil]
        intro a ha
        rcases List.mem_map.mp ha with ⟨x, hx, hfx⟩
        subst hfx
        simp only [Bool.and_eq_true, beq_iff_eq, not_and]
        intro hcontr
        exact absurd (by rw [← (hf4 x).2.1]; exact hcontr) (hfresh0 x hx)
      have h2 : (rows.filter
          (fun r => r.parent_cell_key == some row.cell_key &&
            r.status == "pending")) = rows := by
        rw [List.filter_eq_self]
        intro r hr
        rcases hrowsp r hr with ⟨-, hst, hp, -⟩
        simp [hp, hst]
      rw [h1, h2, hlen4]
      rfl
    · intro r hr hpar
      rw [hcells] at hr
      rcases List.mem_map.mp hr with ⟨x, hx, hfx⟩
      rcases List.mem_append.mp hx with hxold | hxnew
      · exfalso
        apply hfresh0 x hxold
        rw [← (hf4 x).2.1, hfx]
        exact hpar
      · have hfr2 : f x = x := hrowsid x hxnew
        rw [← hfx, hfr2]
        rcases hrowsp x hxnew with ⟨-, hst, hp, hrad, hmin, hrun, hdep⟩
        exact ⟨hst, hrad, hmin, hrun, hdep⟩
  · intro hdone
    rcases run_loop_iteration_done_shape env rid s db1 row places code horacle
      hdone with ⟨f, hcells, hf2, hf3, hf4⟩
    refine ⟨?_, ?_, ?_, ?_⟩
    · exact ⟨f row, by
        rw [hcells]
        exact List.mem_map_of_mem f hrowmem,
        (hf4 row).1, (hf3 row rfl).1⟩
    · intro r hr hid
      rw [hcells] at hr
      rcases List.mem_map.mp hr with ⟨x, hx, hfx⟩
      have hxid : x.id = row.id := by rw [← (hf4 x).1, hfx, hid]
      subst hfx
      exact ⟨(hf3 x hxid).1, (hf3 x hxid).2.1⟩
    · rw [hcells, List.length_map]
    · rw [hcells]
      have h1 : ((db1.cells.map f).filter
          (fun r => r.parent_cell_key == some row.cell_key &&
            r.status == "pending")) = [] := by
        rw [List.filter_eq_nil]
        intro a ha
        rcases List.mem_map.mp ha with ⟨x, hx, hfx⟩
        subst hfx
        simp only [Bool.and_eq_true, beq_iff_eq, not_and]
        intro hcontr
        exact absurd (by rw [← (hf4 x).2.1]; exact hcontr) (hfresh0 x hx)
      rw [h1]
      rfl

/-- Witness for C3: a saturated call over a splittable cell yields exactly
four pending children. -/
theorem spec_c3_witness :
    SATURATION_THRESHOLD ≤ (List.replicate 18 wRaw).length ∧
    wCellRow2.min_radius_m ≤ wCellRow2.radius_m / 2 ∧
    ((run_loop_iteration wEnvSat 1 wStateC3 wDBc2 wCellRow2).2.db.cells.filter
      (fun r => r.parent_cell_key == some wCellRow2.cell_key &&
        r.status == "pending")).length = 4 := by
  refine ⟨by decide, by norm_num [wCellRow2], ?_⟩
  exact ((spec_c3 wEnvSat 1 wStateC3 wDBc2 wCellRow2 (List.replicate 18 wRaw) 200
    (by decide) (by decide) (by decide) (by decide) (by decide)).1
    (by decide) (by norm_num [wCellRow2])).2.2.1

theorem string_take_length_le (s : String) (n : Nat) : (s.take n).length ≤ n := by
  have h : (s.take n).data = s.data.take n := String.data_take s n
  have h2 : (s.take n).length = (s.take n).data.length := rfl
  rw [h2, h]
  exact List.length_take_le _ _

theorem cells_wf_eq {db db2 : DB} (hc : db2.cells = db.cells)
    (hn : db2.next_cell_id = db.next_cell_id) (hwf : cells_wf db) : cells_wf db2 := by
  obtain ⟨h1, h2, h3⟩ := hwf
  refine ⟨?_, ?_, ?_⟩
  · rw [hc]; exact h1
  · rw [hc, hn]; exact h2
  · rw [hc]; exact h3

theorem cells_wf_map {db db2 : DB} (f : CellRow → CellRow)
    (hc : db2.cells = db.cells.map f) (hn : db2.next_cell_id = db.next_cell_id)
    (hid : ∀ r, (f r).id = r.id) (hmin : ∀ r, (f r).min_radius_m = r.min_radius_m)
    (hwf : cells_wf db) : cells_wf db2 := by
  obtain ⟨h1, h2, h3⟩ := hwf
  refine ⟨?_, ?_, ?_⟩
  · rw [hc, List.map_map]
    have he : db.cells.map (CellRow.id ∘ f) = db.cells.map CellRow.id :=
      List.map_congr_left (fun a _ => hid a)
    rw [he]
    exact h1
  · intro r hr
    rw [hc] at hr
    rcases List.mem_map.mp hr with ⟨x, hx, hfx⟩
    rw [← hfx, hid, hn]
    exact h2 x hx
  · intro r hr
    rw [hc] at hr
    rcases List.mem_map.mp hr with ⟨x, hx, hfx⟩
    rw [← hfx, hmin]
    exact h3 x hx

theorem nodup_ids_ne {l : List CellRow} (hnd : (l.map CellRow.id).Nodup)
    {a b : CellRow} (ha : a ∈ l) (hb : b ∈ l) (hab : a ≠ b) : a.id ≠ b.id :=
  fun h => hab (List.inj_on_of_nodup_map hnd ha hb h)

theorem insert_cells_step_wf (now status : String) (acc : Nat × DB) (c : Cell)
    (hwf : cells_wf acc.2) (hmin : 0 < c.min_radius_m) :
    cells_wf (insert_cells_step now status acc c).2 := by
  by_cases hx : cell_exists acc.2.cells c.run_id c.cell_key = true
  · rw [insert_cells_step_of_exists hx]
    exact hwf
  · rw [insert_cells_step_of_not_exists (by simpa using hx)]
    obtain ⟨h1, h2, h3⟩ := hwf
    refine ⟨?_, ?_, ?_⟩
    · rw [List.map_append, List.nodup_append]
      refine ⟨h1, List.nodup_singleton _, ?_⟩
      intro a ham has
      rcases List.mem_map.mp ham with ⟨r, hr, hrid⟩
      have hlt := h2 r hr
      rw [hrid] at hlt
      have ha : a = acc.2.next_cell_id := by
        rcases List.mem_map.mp has with ⟨r2, hr2, hrid2⟩
        rw [List.mem_singleton] at hr2
        subst hr2
        exact hrid2.symm
      omega
    · intro r hr
      rcases List.mem_append.mp hr with hro | hrn
      · have := h2 r hro
        show r.id < acc.2.next_cell_id + 1
        omega
      · rw [List.mem_singleton] at hrn
        subst hrn
        show acc.2.next_cell_id < acc.2.next_cell_id + 1
        omega
    · intro r hr
      rcases List.mem_append.mp hr with hro | hrn
      · exact h3 r hro
      · rw [List.mem_singleton] at hrn
        subst hrn
        exact hmin

theorem insert_cells_foldl_wf (now status : String) :
    ∀ (cs : List Cell) (acc : Nat × DB), cells_wf acc.2 →
      (∀ c ∈ cs, 0 < c.min_radius_m) →
      cells_wf ((cs.foldl (insert_cells_step now status) acc).2) := by
  intro cs
  induction cs with
  | nil => intro acc hwf _; exact hwf
  | cons x xs ih =>
    intro acc hwf hmin
    simp only [List.foldl_cons]
    exact ih _ (insert_cells_step_wf now status acc x hwf
      (hmin x (List.mem_cons_self _ _)))
      (fun c hc => hmin c (List.mem_cons_of_mem _ hc))

theorem insert_cells_wf (db : DB) (cs : List Cell) (status : String)
    (hwf : cells_wf db) (hmin : ∀ c ∈ cs, 0 < c.min_radius_m) :
    cells_wf (insert_cells db cs status).2 := by
  by_cases hcs : cs.isEmpty
  · simp only [insert_cells, hcs, if_true]
    exact hwf
  · have hne : cs.isEmpty = false := by simpa using hcs
    simp only [insert_cells, hne, Bool.false_eq_true, if_false]
    exact insert_cells_foldl_wf (toString db.clock) status cs
      (0, (utc_now_iso db).2) hwf hmin

theorem claim_next_wf {db db2 : DB} {rid : Nat} {row : CellRow}
    (h : claim_next_pending_cell db rid = (some row, db2)) (hwf : cells_wf db) :
    cells_wf db2 := by
  rcases claim_next_some_spec h with
    ⟨pre, hpre, -, -, hcells, -, -, -, -, -, hnext, -, -⟩
  refine cells_wf_map _ hcells hnext ?_ ?_ hwf
  · intro r
    by_cases hr : r.id = pre.id
    · simp [hr]
    · simp [hr]
  · intro r
    by_cases hr : r.id = pre.id
    · simp [hr]
    · simp [hr]

theorem insert_places_cells (db : DB) (places : List RawPlace) (seen : List String) :
    (insert_places db places seen).2.2.2.cells = db.cells :=
  (insert_places_db_frame places (0, 0, seen, db)).1

theorem insert_places_next (db : DB) (places : List RawPlace) (seen : List String) :
    (insert_places db places seen).2.2.2.next_cell_id = db.next_cell_id :=
  (insert_places_db_frame places (0, 0, seen, db)).2.2.2.1

theorem run_loop_iteration_insert_form (env : Env) (rid : Nat) (s : LoopState)
    (db1 : DB) (row : CellRow) (places : List RawPlace) (code : Int)
    (horacle : env.oracle (s.calls_used + 1) = FetchResult.success places code)
    (hsat : SATURATION_THRESHOLD ≤ places.length)
    (hie : (split_cell env.cosd (cell_of_row rid row)).isEmpty = false) :
    ∃ ic dc,
      (run_loop_iteration env rid s db1 row).2.db.cells =
        (update_cell_success (insert_cells (insert_places
          (update_run_calls (utc_now_iso db1).2 rid (s.calls_used + 1)) places
          s.seen_place_ids).2.2.2 (split_cell env.cosd (cell_of_row rid row))
          stPending).2 row.id stSplit places.length ic dc true).cells ∧
      (run_loop_iteration env rid s db1 row).2.db.next_cell_id =
        (insert_cells (insert_places
          (update_run_calls (utc_now_iso db1).2 rid (s.calls_used + 1)) places
          s.seen_place_ids).2.2.2 (split_cell env.cosd (cell_of_row rid row))
          stPending).2.next_cell_id := by
  have hsatT : (SATURATION_THRESHOLD ≤ places.length) = True := eq_true hsat
  refine ⟨(insert_places (update_run_calls (utc_now_iso db1).2 rid
      (s.calls_used + 1)) places s.seen_place_ids).1,
    (insert_places (update_run_calls (utc_now_iso db1).2 rid
      (s.calls_used + 1)) places s.seen_place_ids).2.1, ?_, ?_⟩
  · simp only [run_loop_iteration, horacle, hsatT, if_true, decide_True, hie,
      Bool.false_eq_true, if_false]
    rfl
  · simp only [run_loop_iteration, horacle, hsatT, if_true, decide_True, hie,
      Bool.false_eq_true, if_false]
    rfl

theorem run_loop_iteration_done_form (env : Env) (rid : Nat) (s : LoopState)
    (db1 : DB) (row : CellRow) (places : List RawPlace) (code : Int)
    (horacle : env.oracle (s.calls_used + 1) = FetchResult.success places code)
    (hchildren : (if SATURATION_THRESHOLD ≤ places.length then
      split_cell env.cosd (cell_of_row rid row) else []) = []) :
    ∃ ic dc sat,
      (run_loop_iteration env rid s db1 row).2.db.cells =
        (update_cell_success (insert_places
          (update_run_calls (utc_now_iso db1).2 rid (s.calls_used + 1)) places
          s.seen_place_ids).2.2.2 row.id stDone places.length ic dc sat).cells ∧
      (run_loop_iteration env rid s db1 row).2.db.next_cell_id = db1.next_cell_id := by
  refine ⟨(insert_places (update_run_calls (utc_now_iso db1).2 rid
      (s.calls_used + 1)) places s.seen_place_ids).1,
    (insert_places (update_run_calls (utc_now_iso db1).2 rid
      (s.calls_used + 1)) places s.seen_place_ids).2.1,
    decide (SATURATION_THRESHOLD ≤ places.length), ?_, ?_⟩
  · simp only [run_loop_iteration, horacle, hchildren, List.isEmpty_nil, if_true]
    rfl
  · have hnext := insert_places_next (update_run_calls (utc_now_iso db1).2 rid
      (s.calls_used + 1)) places s.seen_place_ids
    simp only [run_loop_iteration, horacle, hchildren, List.isEmpty_nil, if_true]
    exact hnext

theorem run_loop_iteration_wf (env : Env) (rid : Nat) (s : LoopState) (db1 : DB)
    (row : CellRow) (hwf : cells_wf db1) (hminrow : 0 < row.min_radius_m) :
    cells_wf (run_loop_iteration env rid s db1 row).2.db := by
  cases horacle : env.oracle (s.calls_used + 1) with
  | failure err http =>
    rcases run_loop_iteration_failure_shape env rid s db1 row err http horacle with
      ⟨hcells, -, hnext, -⟩
    rcases update_cell_error_shape (update_run_calls (utc_now_iso db1).2 rid
      (s.calls_used + 1)) row.id err with ⟨f, hf1, -, -, hf4⟩
    have hcu : (update_run_calls (utc_now_iso db1).2 rid
        (s.calls_used + 1)).cells = db1.cells := rfl
    rw [hcu] at hf1
    exact cells_wf_map f (hcells.trans hf1) hnext (fun r => (hf4 r).1)
      (fun r => (hf4 r).2.2.2.1) hwf
  | success places code =>
    by_cases hch : (if SATURATION_THRESHOLD ≤ places.length then
        split_cell env.cosd (cell_of_row rid row) else []) = []
    · rcases run_loop_iteration_done_form env rid s db1 row places code horacle hch
        with ⟨ic, dc, sat, hcells, hnext⟩
      have hwf4 : cells_wf (insert_places (update_run_calls (utc_now_iso db1).2 rid
          (s.calls_used + 1)) places s.seen_place_ids).2.2.2 :=
        cells_wf_eq ((insert_places_cells _ places _).trans rfl)
          ((insert_places_next _ places _).trans rfl) hwf
      rcases update_cell_success_shape (insert_places (update_run_calls
        (utc_now_iso db1).2 rid (s.calls_used + 1)) places s.seen_place_ids).2.2.2
        row.id stDone places.length ic dc sat with ⟨f, hf1, -, -, hf4⟩
      refine cells_wf_map f (hcells.trans hf1) ?_ (fun r => (hf4 r).1)
        (fun r => (hf4 r).2.2.2.1) hwf4
      rw [hnext]
      exact ((insert_places_next (update_run_calls (utc_now_iso db1).2 rid
        (s.calls_used + 1)) places s.seen_place_ids).trans rfl).symm
    · have hs : SATURATION_THRESHOLD ≤ places.length := by
        by_contra hns
        exact hch (if_neg hns)
      have hsplitne : split_cell env.cosd (cell_of_row rid row) ≠ [] := by
        intro h0
        apply hch
        rw [if_pos hs, h0]
      have hieF : (split_cell env.cosd (cell_of_row rid row)).isEmpty = false := by
        cases hsp : split_cell env.cosd (cell_of_row rid row) with
        | nil => exact absurd hsp hsplitne
        | cons a l => rfl
      rcases run_loop_iteration_insert_form env rid s db1 row places code horacle hs
        hieF with ⟨ic, dc, hcells, hnext⟩
      have hwf4 : cells_wf (insert_places (update_run_calls (utc_now_iso db1).2 rid
          (s.calls_used + 1)) places s.seen_place_ids).2.2.2 :=
        cells_wf_eq ((insert_places_cells _ places _).trans rfl)
          ((insert_places_next _ places _).trans rfl) hwf
      have hchmin : ∀ c ∈ split_cell env.cosd (cell_of_row rid row),
          0 < c.min_radius_m := by
        intro c hc
        have h := (split_cell_child_keys env.cosd (cell_of_row rid row) c hc).2.2.2.2.1
        rw [h]
        exact hminrow
      have hwf5 := insert_cells_wf _ (split_cell env.cosd (cell_of_row rid row))
        stPending hwf4 hchmin
      rcases update_cell_success_shape (insert_cells (insert_places
        (update_run_calls (utc_now_iso db1).2 rid (s.calls_used + 1)) places
        s.seen_place_ids).2.2.2 (split_cell env.cosd (cell_of_row rid row))
        stPending).2 row.id stSplit places.length ic dc true with ⟨f, hf1, -, -, hf4⟩
      exact cells_wf_map f (hcells.trans hf1) hnext (fun r => (hf4 r).1)
        (fun r => (hf4 r).2.2.2.1) hwf5

theorem run_loop_iteration_preserves (env : Env) (rid : Nat) (s : LoopState)
    (db1 : DB) (row : CellRow) (r : CellRow) (hr : r ∈ db1.cells)
    (hne : r.id ≠ row.id) :
    r ∈ (run_loop_iteration env rid s db1 row).2.db.cells := by
  cases horacle : env.oracle (s.calls_used + 1) with
  | failure err http =>
    rcases run_loop_iteration_failure_shape env rid s db1 row err http horacle with
      ⟨hcells, -, -, -⟩
    rcases update_cell_error_shape (update_run_calls (utc_now_iso db1).2 rid
      (s.calls_used + 1)) row.id err with ⟨f, hf1, hf2, -, -⟩
    rw [hcells, hf1]
    have hfr : f r = r := hf2 r hne
    have hm := List.mem_map_of_mem f hr
    rw [hfr] at hm
    exact hm
  | success places code =>
    by_cases hch : (if SATURATION_THRESHOLD ≤ places.length then
        split_cell env.cosd (cell_of_row rid row) else []) = []
    · rcases run_loop_iteration_done_form env rid s db1 row places code horacle hch
        with ⟨ic, dc, sat, hcells, -⟩
      rcases update_cell_success_shape (insert_places (update_run_calls
        (utc_now_iso db1).2 rid (s.calls_used + 1)) places s.seen_place_ids).2.2.2
        row.id stDone places.length ic dc sat with ⟨f, hf1, hf2, -, -⟩
      rw [hcells, hf1, insert_places_cells]
      have hfr : f r = r := hf2 r hne
      have hm := List.mem_map_of_mem f hr
      rw [hfr] at hm
      exact hm
    · have hs : SATURATION_THRESHOLD ≤ places.length := by
        by_contra hns
        exact hch (if_neg hns)
      have hsplitne : split_cell env.cosd (cell_of_row rid row) ≠ [] := by
        intro h0
        apply hch
        rw [if_pos hs, h0]
      have hieF : (split_cell env.cosd (cell_of_row rid row)).isEmpty = false := by
        cases hsp : split_cell env.cosd (cell_of_row rid row) with
        | nil => exact absurd hsp hsplitne
        | cons a l => rfl
      rcases run_loop_iteration_insert_form env rid s db1 row places code horacle hs
        hieF with ⟨ic, dc, hcells, -⟩
      rcases update_cell_success_shape (insert_cells (insert_places
        (update_run_calls (utc_now_iso db1).2 rid (s.calls_used + 1)) places
        s.seen_place_ids).2.2.2 (split_cell env.cosd (cell_of_row rid row))
        stPending).2 row.id stSplit places.length ic dc true with ⟨f, hf1, hf2, -, -⟩
      rcases insert_cells_cells_append (insert_places (update_run_calls
        (utc_now_iso db1).2 rid (s.calls_used + 1)) places s.seen_place_ids).2.2.2
        (split_cell env.cosd (cell_of_row rid row)) stPending with ⟨t, ht⟩
      rw [hcells, hf1, ht, insert_places_cells]
      have hfr : f r = r := hf2 r hne
      have hm := List.mem_map_of_mem f (List.mem_append_left t hr)
      rw [hfr] at hm
      exact hm

theorem run_loop_fuel_error_persist (env : Env) (rid effMax : Nat) :
    ∀ (fuel : Nat) (s : LoopState) (evs : List Event) (status : String)
      (s2 : LoopState),
      cells_wf s.db →
      run_loop_fuel env rid effMax fuel s = some (evs, status, s2) →
      ∀ r ∈ s.db.cells, r.status = "error" → r ∈ s2.db.cells := by
  intro fuel
  induction fuel with
  | zero =>
    intro s evs status s2 _ h
    simp [run_loop_fuel] at h
  | succ n ih =>
    intro s evs status s2 hwf h r hr herr
    by_cases hb : effMax ≤ s.calls_used
    · simp only [run_loop_fuel, if_pos hb] at h
      have h2 := Option.some.inj h
      have hs2 : s2 = { s with db := mark_run_finished s.db rid stStopped none } :=
        (congrArg (fun p => p.2.2) h2).symm
      rw [hs2]
      show r ∈ (mark_run_finished s.db rid stStopped none).cells
      rw [mark_run_finished_cells]
      exact hr
    · simp only [run_loop_fuel] at h
      rw [if_neg hb] at h
      rcases hclaim : claim_next_pending_cell s.db rid with ⟨rowopt, db1⟩
      rw [hclaim] at h
      cases rowopt with
      | none =>
        have h2 := Option.some.inj h
        have hs2 : s2 = { s with db := mark_run_finished db1 rid stCompleted none } :=
          (congrArg (fun p => p.2.2) h2).symm
        rcases claim_next_fst_none hclaim with ⟨-, hdb⟩
        subst hdb
        rw [hs2]
        show r ∈ (mark_run_finished s.db rid stCompleted none).cells
        rw [mark_run_finished_cells]
        exact hr
      | some row =>
        have h3 : (match run_loop_fuel env rid effMax n
            (run_loop_iteration env rid s db1 row).2 with
          | none => none
          | some r2 => some ((run_loop_iteration env rid s db1 row).1 ++ r2.1,
              r2.2.1, r2.2.2)) = some (evs, status, s2) := h
        cases hrec : run_loop_fuel env rid effMax n
            (run_loop_iteration env rid s db1 row).2 with
        | none =>
          rw [hrec] at h3
          exact Option.noConfusion h3
        | some res =>
          rw [hrec] at h3
          have hs2 : s2 = res.2.2 :=
            (congrArg (fun p => p.2.2) (Option.some.inj h3)).symm
          rcases claim_next_some_spec hclaim with
            ⟨pre, hpre, -, hprest, hcells1, hrowid, -, -, -, -, -, -,
              orig, horig, -, hroweq⟩
          have hwf1 : cells_wf db1 := claim_next_wf hclaim hwf
          have hrmin : 0 < row.min_radius_m := by
            rw [hroweq]
            exact hwf.2.2 orig horig
          have hrne : r.id ≠ pre.id := by
            intro hid
            have hne2 : r ≠ pre := by
              intro hrp
              rw [hrp, hprest] at herr
              exact absurd herr (by decide)
            exact nodup_ids_ne hwf.1 hr hpre hne2 hid
          have hrdb1 : r ∈ db1.cells := by
            rw [hcells1]
            have hbe : (r.id == pre.id) = false := beq_eq_false_iff_ne.mpr hrne
            have hm := List.mem_map_of_mem (fun x : CellRow =>
              if x.id == pre.id then
                { x with status := stProcessing
                         started_at := some (toString s.db.clock)
                         error_message := none }
              else x) hr
            simp only [hbe, Bool.false_eq_true, if_false] at hm
            exact hm
          have hrne2 : r.id ≠ row.id := by
            rw [hrowid]
            exact hrne
          have hriter : r ∈ (run_loop_iteration env rid s db1 row).2.db.cells :=
            run_loop_iteration_preserves env rid s db1 row r hrdb1 hrne2
          have hwfiter : cells_wf (run_loop_iteration env rid s db1 row).2.db :=
            run_loop_iteration_wf env rid s db1 row hwf1 hrmin
          rw [hs2]
          exact ih (run_loop_iteration env rid s db1 row).2 res.1 res.2.1 res.2.2
            hwfiter (by rw [hrec]) r hriter herr

theorem run_loop_error_persist (env : Env) (rid effMax : Nat) (s : LoopState)
    (hwf : cells_wf s.db) :
    ∀ r ∈ s.db.cells, r.status = "error" →
      r ∈ (run_loop env rid effMax s).2.2.db.cells := by
  intro r hr herr
  rcases run_loop_fuel_main env rid effMax (effMax - s.calls_used + 1) s (by omega)
    with ⟨evs, status, s2, heq, -, -, -, -, -, -⟩
  have hmem := run_loop_fuel_error_persist env rid effMax _ s evs status s2 hwf heq
    r hr herr
  unfold run_loop
  rw [heq]
  simp only [Option.getD_some]
  exact hmem

/-- C8: failure handling of the orchestrator loop.  When the external call
for a claimed cell fails, the cell row is set to status error with the
message truncated to at most 1000 characters, a query-log row is appended
carrying the full error and a null result count, and the loop continues
(the iteration returns normally, charging exactly one call).  A cell in
error status is excluded from every later claim, because
claim_next_pending_cell only ever selects cells whose status is pending;
consequently an errored cell row survives the remainder of the run
unchanged. -/
theorem spec_c8 (env : Env) (rid : Nat) (s : LoopState) (db1 : DB) (row : CellRow)
    (err : String) (http : Option Int)
    (horacle : env.oracle (s.calls_used + 1) = FetchResult.failure err http)
    (hrowmem : row ∈ db1.cells) :
    (∃ r ∈ (run_loop_iteration env rid s db1 row).2.db.cells,
      r.id = row.id ∧ r.status = "error" ∧
      r.error_message = some (err.take 1000) ∧ (err.take 1000).length ≤ 1000) ∧
    (∀ r ∈ (run_loop_iteration env rid s db1 row).2.db.cells, r.id = row.id →
      r.status = "error" ∧ r.error_message = some (err.take 1000)) ∧
    (∃ q : QueryRow,
      (run_loop_iteration env rid s db1 row).2.db.queries = db1.queries ++ [q] ∧
      q.result_count = none ∧ q.error_message = some err ∧ q.http_status = http ∧
      q.api_call_number = s.calls_used + 1) ∧
    (run_loop_iteration env rid s db1 row).2.calls_used = s.calls_used + 1 ∧
    (∀ (db db2 : DB) (rowc : CellRow),
      claim_next_pending_cell db rid = (some rowc, db2) →
      ∃ pre ∈ db.cells, pre.run_id = rid ∧ pre.status = "pending" ∧
        rowc.id = pre.id) ∧
    (∀ (effMax : Nat) (st : LoopState), cells_wf st.db →
      ∀ r ∈ st.db.cells, r.status = "error" →
        r ∈ (run_loop env rid effMax st).2.2.db.cells) := by
  rcases run_loop_iteration_failure_shape env rid s db1 row err http horacle with
    ⟨hcells, ⟨q, hq, hq1, hq2, hq3, hq4, -, -⟩, -, -⟩
  rcases update_cell_error_shape (update_run_calls (utc_now_iso db1).2 rid
    (s.calls_used + 1)) row.id err with ⟨f, hf1, -, hf3, hf4⟩
  refine ⟨?_, ?_, ⟨q, hq, hq1, hq2, hq3, hq4⟩, run_loop_iteration_calls env rid s db1 row,
    ?_, ?_⟩
  · refine ⟨f row, ?_, (hf3 row rfl).2.2.1, (hf3 row rfl).1, (hf3 row rfl).2.1,
      string_take_length_le err 1000⟩
    rw [hcells, hf1]
    exact List.mem_map_of_mem f hrowmem
  · intro r hrmem hid
    rw [hcells, hf1] at hrmem
    rcases List.mem_map.mp hrmem with ⟨x, hx, hfx⟩
    have hxid : x.id = row.id := by
      rw [← (hf4 x).1, hfx, hid]
    rw [← hfx]
    exact ⟨(hf3 x hxid).1, (hf3 x hxid).2.1⟩
  · intro db db2 rowc hclaim
    rcases claim_next_some_spec hclaim with
      ⟨pre, hpre, hprerun, hprest, -, hrowid, -, -, -, -, -, -, -⟩
    exact ⟨pre, hpre, hprerun, hprest, hrowid⟩
  · intro effMax st hwf
    exact run_loop_error_persist env rid effMax st hwf

/-- Witness for C8: a failing call over the concrete one-cell store marks
the cell error with the truncated message. -/
theorem spec_c8_witness :
    wEnvErr.oracle (wState1.calls_used + 1) = FetchResult.failure "boom" (some 500) ∧
    wCellRow1 ∈ wDBc1.cells ∧
    (∃ r ∈ (run_loop_iteration wEnvErr 1 wState1 wDBc1 wCellRow1).2.db.cells,
      r.id = wCellRow1.id ∧ r.status = "error" ∧
      r.error_message = some ("boom".take 1000) ∧
      ("boom".take 1000).length ≤ 1000) :=
  ⟨rfl, by decide,
    (spec_c8 wEnvErr 1 wState1 wDBc1 wCellRow1 "boom" (some 500) rfl (by decide)).1⟩

theorem pending_for_false_of_status (rid : Nat) (r : CellRow)
    (h : r.status ≠ "pending") : pending_for rid r = false := by
  unfold pending_for
  have h2 : (r.status == "pending") = false := beq_eq_false_iff_ne.mpr h
  rw [h2, Bool.and_false]

theorem pending_potential_cons (rid : Nat) (a : CellRow) (l : List CellRow) :
    pending_potential (a :: l) rid =
      (if pending_for rid a = true then cell_potential a else 0) +
        pending_potential l rid := by
  by_cases h : pending_for rid a = true
  · rw [if_pos h]
    simp [pending_potential, List.filter_cons, h]
  · rw [if_neg h]
    have hf : pending_for rid a = false := by
      cases hb : pending_for rid a
      · rfl
      · exact absurd hb h
    simp [pending_potential, List.filter_cons, hf]

theorem pending_potential_append (rid : Nat) (l1 l2 : List CellRow) :
    pending_potential (l1 ++ l2) rid =
      pending_potential l1 rid + pending_potential l2 rid := by
  simp [pending_potential, List.filter_append]

theorem pending_potential_map_eq (rid : Nat) :
    ∀ (l : List CellRow) (f : CellRow → CellRow),
      (∀ r ∈ l, pending_for rid (f r) = pending_for rid r ∧
        cell_potential (f r) = cell_potential r) →
      pending_potential (l.map f) rid = pending_potential l rid := by
  intro l
  induction l with
  | nil => intro f _; rfl
  | cons a t ih =>
    intro f h
    rw [List.map_cons, pending_potential_cons, pending_potential_cons,
      (h a (List.mem_cons_self _ _)).1, (h a (List.mem_cons_self _ _)).2,
      ih f (fun r hr => h r (List.mem_cons_of_mem _ hr))]

theorem pending_potential_unclaim (rid : Nat) :
    ∀ (l : List CellRow) (f : CellRow → CellRow) (pre : CellRow),
      (l.map CellRow.id).Nodup → pre ∈ l →
      pending_for rid pre = true →
      pending_for rid (f pre) = false →
      (∀ r, r.id ≠ pre.id → f r = r) →
      pending_potential (l.map f) rid + cell_potential pre =
        pending_potential l rid := by
  intro l
  induction l with
  | nil => intro f pre _ hpre; cases hpre
  | cons a t ih =>
    intro f pre hnd hpre hpend hfpre hfother
    have hnd2 := List.nodup_cons.mp hnd
    rcases List.mem_cons.mp hpre with heq | hpret
    · rw [← heq] at hnd2 ⊢
      have htmap : t.map f = t :=
        list_map_id_of_mem t f (fun r hr => hfother r
          (fun hid => hnd2.1 (hid ▸ List.mem_map_of_mem CellRow.id hr)))
      have h1 : pending_potential ((pre :: t).map f) rid = pending_potential t rid := by
        rw [List.map_cons, htmap]
        simp [pending_potential, List.filter_cons, hfpre]
      have h2 : pending_potential (pre :: t) rid =
          cell_potential pre + pending_potential t rid := by
        simp [pending_potential, List.filter_cons, hpend]
      rw [h1, h2]
      omega
    · have haid : a.id ≠ pre.id :=
        fun h => hnd2.1 (h ▸ List.mem_map_of_mem CellRow.id hpret)
      have hfa : f a = a := hfother a haid
      rw [List.map_cons, hfa, pending_potential_cons, pending_potential_cons]
      have hrec := ih f pre hnd2.2 hpret hpend hfpre hfother
      by_cases hpa : pending_for rid a = true
      · rw [if_pos hpa]
        omega
      · rw [if_neg hpa]
        omega

theorem pending_potential_le_of_const (rid : Nat) (v : Nat) :
    ∀ (t : List CellRow), (∀ r ∈ t, cell_potential r = v) →
      pending_potential t rid ≤ t.length * v := by
  intro t
  induction t with
  | nil => intro _; simp [pending_potential]
  | cons a l ih =>
    intro h
    rw [pending_potential_cons]
    have ha := h a (List.mem_cons_self _ _)
    have hrec := ih (fun r hr => h r (List.mem_cons_of_mem _ hr))
    have hmul : l.length * v ≤ (a :: l).length * v :=
      Nat.mul_le_mul (by simp) (le_refl v)
    by_cases hp : pending_for rid a = true
    · rw [if_pos hp, ha]
      simp only [List.length_cons]
      have : (l.length + 1) * v = l.length * v + v := by ring
      omega
    · rw [if_neg hp]
      omega

theorem estimate_pos (radius_m min_radius_m : ℚ) :
    1 ≤ estimate_calls_for_radius radius_m min_radius_m := by
  rw [estimate_calls_for_radius]
  split_ifs <;> omega

theorem estimate_split (radius_m min_radius_m : ℚ) (h0 : 0 < min_radius_m)
    (h2 : min_radius_m ≤ radius_m / 2) :
    estimate_calls_for_radius radius_m min_radius_m =
      1 + 4 * estimate_calls_for_radius (radius_m / 2) min_radius_m := by
  rw [estimate_calls_for_radius]
  rw [dif_neg (not_le.mpr h0), dif_neg (not_lt.mpr h2)]

theorem insert_cells_foldl_chars (now status : String) :
    ∀ (cs : List Cell) (acc : Nat × DB),
      ∃ t, (cs.foldl (insert_cells_step now status) acc).2.cells =
          acc.2.cells ++ t ∧
        t.length ≤ cs.length ∧
        ∀ r ∈ t, ∃ c ∈ cs, ∃ id, acc.2.next_cell_id ≤ id ∧
          r = cell_row_of id c status now := by
  intro cs
  induction cs with
  | nil =>
    intro acc
    exact ⟨[], by simp, by simp, by intro r hr; cases hr⟩
  | cons x xs ih =>
    intro acc
    simp only [List.foldl_cons]
    by_cases hx : cell_exists acc.2.cells x.run_id x.cell_key = true
    · rw [insert_cells_step_of_exists hx]
      rcases ih acc with ⟨t, h1, h2, h3⟩
      refine ⟨t, h1, ?_, ?_⟩
      · simp only [List.length_cons]
        omega
      · intro r hr
        rcases h3 r hr with ⟨c, hc, id, hid, hreq⟩
        exact ⟨c, List.mem_cons_of_mem _ hc, id, hid, hreq⟩
    · rw [insert_cells_step_of_not_exists (by simpa using hx)]
      rcases ih (acc.1 + 1,
        { acc.2 with
            cells := acc.2.cells ++ [cell_row_of acc.2.next_cell_id x status now]
            next_cell_id := acc.2.next_cell_id + 1 }) with ⟨t, h1, h2, h3⟩
      refine ⟨cell_row_of acc.2.next_cell_id x status now :: t, ?_, ?_, ?_⟩
      · rw [h1]
        simp
      · simp only [List.length_cons]
        omega
      · intro r hr
        rcases List.mem_cons.mp hr with hr0 | hr2
        · exact ⟨x, List.mem_cons_self _ _, acc.2.next_cell_id, le_rfl, hr0⟩
        · rcases h3 r hr2 with ⟨c, hc, id, hid, hreq⟩
          have hid2 : acc.2.next_cell_id + 1 ≤ id := hid
          exact ⟨c, List.mem_cons_of_mem _ hc, id, by omega, hreq⟩

theorem insert_cells_chars (db : DB) (cs : List Cell) (status : String) :
    ∃ t, (insert_cells db cs status).2.cells = db.cells ++ t ∧
      t.length ≤ cs.length ∧
      ∀ r ∈ t, ∃ c ∈ cs, ∃ id, db.next_cell_id ≤ id ∧
        r = cell_row_of id c status (toString db.clock) := by
  by_cases hcs : cs.isEmpty
  · refine ⟨[], by simp [insert_cells, hcs, utc_now_iso], by simp, ?_⟩
    intro r hr
    cases hr
  · have hne : cs.isEmpty = false := by simpa using hcs
    simp only [insert_cells, hne, Bool.false_eq_true, if_false]
    exact insert_cells_foldl_chars (toString db.clock) status cs (0, (utc_now_iso db).2)

theorem run_loop_iteration_potential (env : Env) (rid : Nat) (s : LoopState)
    (db1 : DB) (row : CellRow) (hwf : cells_wf db1) (hrow : row ∈ db1.cells)
    (hproc : ∀ r ∈ db1.cells, r.id = row.id → r.status = "processing") :
    pending_potential (run_loop_iteration env rid s db1 row).2.db.cells rid + 1 ≤
      pending_potential db1.cells rid + cell_potential row := by
  have hmin : 0 < row.min_radius_m := hwf.2.2 row hrow
  have hpotpos : 1 ≤ cell_potential row :=
    estimate_pos row.radius_m row.min_radius_m
  cases horacle : env.oracle (s.calls_used + 1) with
  | failure err http =>
    rcases run_loop_iteration_failure_shape env rid s db1 row err http horacle with
      ⟨hcells, -, -, -⟩
    rcases update_cell_error_shape (update_run_calls (utc_now_iso db1).2 rid
      (s.calls_used + 1)) row.id err with ⟨f, hf1, hf2, hf3, hf4⟩
    have hcu : (update_run_calls (utc_now_iso db1).2 rid
        (s.calls_used + 1)).cells = db1.cells := rfl
    rw [hcu] at hf1
    have heq : pending_potential
        (run_loop_iteration env rid s db1 row).2.db.cells rid =
        pending_potential db1.cells rid := by
      rw [hcells, hf1]
      apply pending_potential_map_eq
      intro r hr
      by_cases hid : r.id = row.id
      · refine ⟨?_, ?_⟩
        · rw [pending_for_false_of_status rid (f r) (by rw [(hf3 r hid).1]; decide),
            pending_for_false_of_status rid r (by rw [hproc r hr hid]; decide)]
        · unfold cell_potential
          rw [(hf4 r).2.2.1, (hf4 r).2.2.2.1]
      · rw [hf2 r hid]
        exact ⟨rfl, rfl⟩
    rw [heq]
    omega
  | success places code =>
    by_cases hch : (if SATURATION_THRESHOLD ≤ places.length then
        split_cell env.cosd (cell_of_row rid row) else []) = []
    · rcases run_loop_iteration_done_form env rid s db1 row places code horacle hch
        with ⟨ic, dc, sat, hcells, -⟩
      rcases update_cell_success_shape (insert_places (update_run_calls
        (utc_now_iso db1).2 rid (s.calls_used + 1)) places s.seen_place_ids).2.2.2
        row.id stDone places.length ic dc sat with ⟨f, hf1, hf2, hf3, hf4⟩
      have heq : pending_potential
          (run_loop_iteration env rid s db1 row).2.db.cells rid =
          pending_potential db1.cells rid := by
        rw [hcells, hf1, insert_places_cells]
        apply pending_potential_map_eq
        intro r hr
        by_cases hid : r.id = row.id
        · refine ⟨?_, ?_⟩
          · rw [pending_for_false_of_status rid (f r)
              (by rw [(hf3 r hid).1]; decide),
              pending_for_false_of_status rid r (by rw [hproc r hr hid]; decide)]
          · unfold cell_potential
            rw [(hf4 r).2.2.1, (hf4 r).2.2.2.1]
        · rw [hf2 r hid]
          exact ⟨rfl, rfl⟩
      rw [heq]
      omega
    · have hs : SATURATION_THRESHOLD ≤ places.length := by
        by_contra hns
        exact hch (if_neg hns)
      have hsplitne : split_cell env.cosd (cell_of_row rid row) ≠ [] := by
        intro h0
        apply hch
        rw [if_pos hs, h0]
      have hieF : (split_cell env.cosd (cell_of_row rid row)).isEmpty = false := by
        cases hsp : split_cell env.cosd (cell_of_row rid row) with
        | nil => exact absurd hsp hsplitne
        | cons a l => rfl
      have hsp : row.min_radius_m ≤ row.radius_m / 2 := by
        by_contra hc
        exact hsplitne (split_cell_eq_nil env.cosd (cell_of_row rid row)
          (not_le.mp hc))
      rcases run_loop_iteration_insert_form env rid s db1 row places code horacle hs
        hieF with ⟨ic, dc, hcells, -⟩
      rcases insert_cells_chars (insert_places (update_run_calls (utc_now_iso db1).2
        rid (s.calls_used + 1)) places s.seen_place_ids).2.2.2
        (split_cell env.cosd (cell_of_row rid row)) stPending with ⟨t, ht, htlen, htc⟩
      rcases update_cell_success_shape (insert_cells (insert_places
        (update_run_calls (utc_now_iso db1).2 rid (s.calls_used + 1)) places
        s.seen_place_ids).2.2.2 (split_cell env.cosd (cell_of_row rid row))
        stPending).2 row.id stSplit places.length ic dc true with ⟨f, hf1, hf2, hf3, hf4⟩
      have hrowlt : row.id < db1.next_cell_id := hwf.2.1 row hrow
      have hnext4 : (insert_places (update_run_calls (utc_now_iso db1).2 rid
          (s.calls_used + 1)) places s.seen_place_ids).2.2.2.next_cell_id =
          db1.next_cell_id :=
        (insert_places_next (update_run_calls (utc_now_iso db1).2 rid
          (s.calls_used + 1)) places s.seen_place_ids).trans rfl
      have htprops : ∀ r ∈ t, f r = r ∧ pending_for rid r = true ∧
          cell_potential r =
            estimate_calls_for_radius (row.radius_m / 2) row.min_radius_m := by
        intro r hr
        rcases htc r hr with ⟨c, hc, id, hid, hreq⟩
        rcases split_cell_child_keys env.cosd (cell_of_row rid row) c hc with
          ⟨-, hcrun, -, hcrad, hcmin, -, -⟩
        rw [hnext4] at hid
        have hne : r.id ≠ row.id := by
          subst hreq
          show id ≠ row.id
          omega
        refine ⟨hf2 r hne, ?_, ?_⟩
        · subst hreq
          simp [pending_for, cell_row_of, hcrun, stPending, cell_of_row]
        · subst hreq
          unfold cell_potential
          show estimate_calls_for_radius c.radius_m c.min_radius_m = _
          rw [hcrad, hcmin]
          simp [cell_of_row]
      have heq : pending_potential
          (run_loop_iteration env rid s db1 row).2.db.cells rid =
          pending_potential db1.cells rid + pending_potential t rid := by
        rw [hcells, hf1, ht, List.map_append, pending_potential_append]
        have h1 : pending_potential ((insert_places (update_run_calls
            (utc_now_iso db1).2 rid (s.calls_used + 1)) places
            s.seen_place_ids).2.2.2.cells.map f) rid =
            pending_potential db1.cells rid := by
          rw [insert_places_cells]
          apply pending_potential_map_eq
          intro r hr
          by_cases hid : r.id = row.id
          · refine ⟨?_, ?_⟩
            · rw [pending_for_false_of_status rid (f r)
                (by rw [(hf3 r hid).1]; decide),
                pending_for_false_of_status rid r (by rw [hproc r hr hid]; decide)]
            · unfold cell_potential
              rw [(hf4 r).2.2.1, (hf4 r).2.2.2.1]
          · rw [hf2 r hid]
            exact ⟨rfl, rfl⟩
        have h2 : pending_potential (t.map f) rid = pending_potential t rid := by
          rw [list_map_id_of_mem t f (fun r hr => (htprops r hr).1)]
        rw [h1, h2]
      have htbound : pending_potential t rid ≤
          4 * estimate_calls_for_radius (row.radius_m / 2) row.min_radius_m := by
        have hconst := pending_potential_le_of_const rid _ t
          (fun r hr => (htprops r hr).2.2)
        have hlen4 : t.length ≤ 4 := by
          rw [split_cell_length env.cosd (cell_of_row rid row) hsp] at htlen
          exact htlen
        exact hconst.trans (Nat.mul_le_mul hlen4 (le_refl _))
      have hpotrow : cell_potential row =
          1 + 4 * estimate_calls_for_radius (row.radius_m / 2) row.min_radius_m :=
        estimate_split row.radius_m row.min_radius_m hmin hsp
      rw [heq]
      omega

theorem run_loop_fuel_completes (env : Env) (rid effMax : Nat) :
    ∀ (fuel : Nat) (s : LoopState), effMax - s.calls_used < fuel →
      cells_wf s.db →
      s.calls_used + pending_potential s.db.cells rid < effMax →
      ∃ evs s2, run_loop_fuel env rid effMax fuel s =
        some (evs, stCompleted, s2) := by
  intro fuel
  induction fuel with
  | zero =>
    intro s hfuel _ hbud
    exact absurd hfuel (by omega)
  | succ n ih =>
    intro s hfuel hwf hbud
    have hb : ¬ effMax ≤ s.calls_used := by omega
    rcases hclaim : claim_next_pending_cell s.db rid with ⟨rowopt, db1⟩
    cases rowopt with
    | none =>
      refine ⟨[], { s with db := mark_run_finished db1 rid stCompleted none }, ?_⟩
      simp only [run_loop_fuel]
      rw [if_neg hb, hclaim]
    | some row =>
      rcases claim_next_some_spec hclaim with
        ⟨pre, hpre, hprerun, hprest, hcells1, hrowid, -, -, -, -, -, hrowmem1,
          orig, horig, horigid, hroweq⟩
      have horigpre : orig = pre :=
        List.inj_on_of_nodup_map hwf.1 horig hpre horigid
      subst horigpre
      have hwf1 : cells_wf db1 := claim_next_wf hclaim hwf
      have hrmin : 0 < row.min_radius_m := by
        rw [hroweq]
        exact hwf.2.2 orig horig
      have hrowfields : row.radius_m = orig.radius_m ∧
          row.min_radius_m = orig.min_radius_m := by
        rw [hroweq]
        exact ⟨rfl, rfl⟩
      have hpotrow : cell_potential row = cell_potential orig := by
        unfold cell_potential
        rw [hrowfields.1, hrowfields.2]
      have hproc : ∀ r ∈ db1.cells, r.id = row.id → r.status = "processing" := by
        intro r hr hid
        rw [hcells1] at hr
        rcases List.mem_map.mp hr with ⟨x, hx, hfx⟩
        by_cases hxid : x.id = orig.id
        · rw [← hfx]
          simp [hxid, stProcessing]
        · exfalso
          rw [← hfx] at hid
          simp only [beq_iff_eq, hxid, if_false] at hid
          exact hxid (hid.trans hrowid)
      have hpend : pending_for rid orig = true := by
        simp [pending_for, hprerun, hprest]
      have hfpre : pending_for rid ((fun r : CellRow =>
          if r.id == orig.id then
            { r with status := stProcessing
                     started_at := some (toString s.db.clock)
                     error_message := none }
          else r) orig) = false := by
        simp only [beq_self_eq_true, if_true]
        apply pending_for_false_of_status
        show stProcessing ≠ "pending"
        decide
      have hfother : ∀ r : CellRow, r.id ≠ orig.id → (fun r : CellRow =>
          if r.id == orig.id then
            { r with status := stProcessing
                     started_at := some (toString s.db.clock)
                     error_message := none }
          else r) r = r := by
        intro r hne
        simp only [beq_iff_eq, hne, if_false]
      have hphi := pending_potential_unclaim rid s.db.cells (fun r : CellRow =>
        if r.id == orig.id then
          { r with status := stProcessing
                   started_at := some (toString s.db.clock)
                   error_message := none }
        else r) orig hwf.1 hpre hpend hfpre hfother
      rw [← hcells1] at hphi
      have hiter := run_loop_iteration_potential env rid s db1 row hwf1 hrowmem1 hproc
      have hcalls := run_loop_iteration_calls env rid s db1 row
      rcases ih (run_loop_iteration env rid s db1 row).2
        (by rw [hcalls]; omega) (run_loop_iteration_wf env rid s db1 row hwf1 hrmin)
        (by rw [hcalls]; omega) with ⟨evs2, s2, hrec⟩
      refine ⟨(run_loop_iteration env rid s db1 row).1 ++ evs2, s2, ?_⟩
      simp only [run_loop_fuel]
      rw [if_neg hb, hclaim]
      simp only []
      rw [hrec]

theorem run_loop_completes (env : Env) (rid effMax : Nat) (s : LoopState)
    (hwf : cells_wf s.db)
    (hbud : s.calls_used + pending_potential s.db.cells rid < effMax) :
    (run_loop env rid effMax s).2.1 = "completed" := by
  rcases run_loop_fuel_completes env rid effMax (effMax - s.calls_used + 1) s
    (by omega) hwf hbud with ⟨evs, s2, heq⟩
  unfold run_loop
  rw [heq]
  rfl

/-- C7: resume correctness.  A run selected for resume is in a resumable
status (running, stopped or failed), never completed; resume targets that
run keeping its stored calls_used; the requeue step returns exactly the
cells of the run stuck in processing to pending, clearing started_at, and
leaves every other cell untouched; the loop then starts from the stored
counter, which never decreases (it is not reset); and when the remaining
budget strictly exceeds the stored counter plus the worst-case potential of
the pending work, the resumed run ends with status completed. -/
theorem spec_c7 (env : Env) (db : DB) (effMax : Nat) (resumable : RunRow)
    (hres : get_latest_resumable_run db = some resumable)
    (hwf : cells_wf db) :
    (resumable.status = "running" ∨ resumable.status = "stopped" ∨
      resumable.status = "failed") ∧
    resumable.status ≠ "completed" ∧
    ∃ db2, resume_prepare db effMax =
        some (resumable.id, resumable.calls_used, db2) ∧
      (db2.cells.filter (fun r => r.run_id == resumable.id &&
        r.status == "processing")) = [] ∧
      (∀ r ∈ db.cells, r.run_id = resumable.id → r.status = "processing" →
        ({ r with status := stPending, started_at := none } : CellRow) ∈
          db2.cells) ∧
      (∀ r ∈ db.cells, ¬(r.run_id = resumable.id ∧ r.status = "processing") →
        r ∈ db2.cells) ∧
      resume_and_loop env db effMax =
        some (run_loop env resumable.id effMax
          (initial_loop_state db2 resumable.calls_used)) ∧
      resumable.calls_used ≤
        (run_loop env resumable.id effMax
          (initial_loop_state db2 resumable.calls_used)).2.2.calls_used ∧
      (resumable.calls_used + pending_potential db2.cells resumable.id < effMax →
        (run_loop env resumable.id effMax
          (initial_loop_state db2 resumable.calls_used)).2.1 = "completed") := by
  rcases get_latest_resumable_spec hres with ⟨hmem, hst⟩
  have hne : resumable.status ≠ "completed" := by
    rcases hst with h | h | h <;> rw [h] <;> decide
  refine ⟨hst, hne, { (requeue_processing_cells db resumable.id).2 with
      runs := (requeue_processing_cells db resumable.id).2.runs.map (fun q =>
        if q.id == resumable.id then
          { q with status := stRunning, max_calls := effMax } else q) },
    ?_, ?_, ?_, ?_, ?_, ?_, ?_⟩
  · simp only [resume_prepare, hres]
  · rw [List.filter_eq_nil]
    intro r hr
    rcases List.mem_map.mp hr with ⟨x, hx, hfx⟩
    rw [← hfx]
    by_cases hm : (x.run_id == resumable.id && x.status == "processing") = true
    · rw [if_pos hm]
      simp [stPending]
    · rw [if_neg hm]
      exact hm
  · intro r hr hrun hprocst
    have hm : (r.run_id == resumable.id && r.status == "processing") = true := by
      simp [hrun, hprocst]
    have hmem2 := List.mem_map_of_mem (fun r : CellRow =>
      if r.run_id == resumable.id && r.status == "processing" then
        { r with status := stPending, started_at := none } else r) hr
    simp only [hm, if_true] at hmem2
    exact hmem2
  · intro r hr hnot
    have hm : (r.run_id == resumable.id && r.status == "processing") = false := by
      cases hb : (r.run_id == resumable.id && r.status == "processing")
      · rfl
      · exfalso
        have hb2 := hb
        simp only [Bool.and_eq_true, beq_iff_eq] at hb2
        exact hnot hb2
    have hmem2 := List.mem_map_of_mem (fun r : CellRow =>
      if r.run_id == resumable.id && r.status == "processing" then
        { r with status := stPending, started_at := none } else r) hr
    simp only [hm, Bool.false_eq_true, if_false] at hmem2
    exact hmem2
  · simp only [resume_and_loop, resume_prepare, hres]
  · exact (run_loop_spec env resumable.id effMax
      (initial_loop_state { (requeue_processing_cells db resumable.id).2 with
        runs := (requeue_processing_cells db resumable.id).2.runs.map (fun q =>
          if q.id == resumable.id then
            { q with status := stRunning, max_calls := effMax } else q) }
        resumable.calls_used)).2.1
  · intro hbud
    have hwf2 : cells_wf { (requeue_processing_cells db resumable.id).2 with
        runs := (requeue_processing_cells db resumable.id).2.runs.map (fun q =>
          if q.id == resumable.id then
            { q with status := stRunning, max_calls := effMax } else q) } := by
      refine cells_wf_map (fun r : CellRow =>
        if r.run_id == resumable.id && r.status == "processing" then
          { r with status := stPending, started_at := none } else r)
        rfl rfl ?_ ?_ hwf
      · intro r
        show (if (r.run_id == resumable.id && r.status == "processing") = true then
            ({ r with status := stPending, started_at := none } : CellRow)
          else r).id = r.id
        by_cases hm : (r.run_id == resumable.id && r.status == "processing") = true
        · rw [if_pos hm]
        · rw [if_neg hm]
      · intro r
        show (if (r.run_id == resumable.id && r.status == "processing") = true then
            ({ r with status := stPending, started_at := none } : CellRow)
          else r).min_radius_m = r.min_radius_m
        by_cases hm : (r.run_id == resumable.id && r.status == "processing") = true
        · rw [if_pos hm]
        · rw [if_neg hm]
    exact run_loop_completes env resumable.id effMax _ hwf2 hbud

/-- Witness for C7 on the store holding one stopped run. -/
theorem spec_c7_witness :
    get_latest_resumable_run wDBr = some wRun1 ∧
    cells_wf wDBr ∧
    (wRun1.status = "running" ∨ wRun1.status = "stopped" ∨
      wRun1.status = "failed") :=
  ⟨by decide, by decide, (spec_c7 wEnvOk wDBr 9 wRun1 (by decide) (by decide)).1⟩

end Hunger
